import Mathlib

/-!
# Training Data Reconciliation & Indexing Engine — verification

A shallow embedding, in Lean 4, of the reconciliation/indexing engine of the
`train-r` repository:

* `src/services/workout_matcher.py`  — two-phase planned/actual matching
* `src/services/data_sync.py`        — incremental merge, metadata, sync pipeline
* `src/services/index_builder.py`    — by-date / by-week / by-type indices
* `src/services/dashboard_service.py`— daily CTL (42-day EMA) calculator

Python `float` arithmetic is modelled by exact rationals (`ℚ`).  Because the
library's rational operations are `@[irreducible]` and the library's string
comparison is defined by well-founded recursion, neither evaluates inside the
kernel; we therefore define small *executable* counterparts (`qadd`, `qsub`,
`qmul`, `qdiv`, `qabs`, `qleB`, `qltB`, `strLtB`, …) built from `mkRat` and
`List Char`, and prove once and for all that each one agrees with the standard
operation.  All embedded program definitions use the executable forms, so a
closed run of the pipeline can be checked by `decide`/`rfl`.

Calls into the Python standard library that the engine makes
(`datetime.fromisoformat`, `datetime.isocalendar`, `strftime`) are modelled as
explicit function parameters (`parse`, `isoCal`, `fmt`, …); the engine's own
logic is embedded faithfully around them.
-/

/-! ## Executable rational arithmetic, proven equal to the standard one -/

def qof (n : ℤ) : ℚ := mkRat n 1

def qadd (a b : ℚ) : ℚ := mkRat (a.num * b.den + b.num * a.den) (a.den * b.den)

def qsub (a b : ℚ) : ℚ := mkRat (a.num * b.den - b.num * a.den) (a.den * b.den)

def qmul (a b : ℚ) : ℚ := mkRat (a.num * b.num) (a.den * b.den)

def qdiv (a b : ℚ) : ℚ :=
  if 0 ≤ b.num then mkRat (a.num * b.den) (a.den * b.num.toNat)
  else mkRat (-(a.num * b.den)) (a.den * (-b.num).toNat)

def qabs (a : ℚ) : ℚ := mkRat a.num.natAbs a.den

def qleB (a b : ℚ) : Bool := decide (a.num * b.den ≤ b.num * a.den)

def qltB (a b : ℚ) : Bool := decide (a.num * b.den < b.num * a.den)

/-! ## Executable string comparison (Python code-point lexicographic order) -/

def lexLtB : List Char → List Char → Bool
  | [], [] => false
  | [], _ :: _ => true
  | _ :: _, [] => false
  | c :: cs, d :: ds =>
    if c.toNat < d.toNat then true
    else if d.toNat < c.toNat then false
    else lexLtB cs ds

def strLtB (a b : String) : Bool := lexLtB a.data b.data

/-- `a ≤ b` on strings as Python compares them (total order: `¬ (b < a)`). -/
def strLeB (a b : String) : Bool := ! strLtB b a

/-! ## Executable string helpers mirroring the Python snippets used by the engine -/

/-- Python `c.lower()` for the ASCII range (workout type tags are ASCII). -/
def lowerChar (c : Char) : Char :=
  if 65 ≤ c.toNat ∧ c.toNat ≤ 90 then Char.ofNat (c.toNat + 32) else c

/-- Python `s.lower()` (ASCII range). -/
def lowerStr (s : String) : String := String.mk (s.data.map lowerChar)

/-- Python `date_str.split('T')[0]`: everything before the first `'T'`. -/
def splitTPart (s : String) : String := String.mk (s.data.takeWhile (fun c => c ≠ 'T'))

/--
`_extract_date` from `workout_matcher.py` / `index_builder.py`: `None` for an
empty string, the part before `'T'` when one occurs, else the first 10
characters.
-/
def extract_date (date_str : String) : Option String :=
  if date_str = "" then none
  else if date_str.data.contains 'T' then some (splitTPart date_str)
  else some (String.mk (date_str.data.take 10))

/-! ## Python `dict` as an insertion-ordered association list -/

def dictInsert {α : Type} (k : String) (v : α) : List (String × α) → List (String × α)
  | [] => [(k, v)]
  | (k2, v2) :: rest => if k2 = k then (k, v) :: rest else (k2, v2) :: dictInsert k v rest

def dictGet? {α : Type} (k : String) : List (String × α) → Option α
  | [] => none
  | (k2, v2) :: rest => if k2 = k then some v2 else dictGet? k rest

def dictKeys {α : Type} (d : List (String × α)) : List String := d.map Prod.fst

def dictValues {α : Type} (d : List (String × α)) : List α := d.map Prod.snd

def dictHas {α : Type} (k : String) (d : List (String × α)) : Bool :=
  (dictGet? k d).isSome

/-! ## Record model

One record structure per Python dict shape.  Provider fields that the engine
never reads are omitted; `None`-able numeric fields are `Option ℚ`; string
fields whose only use in the engine is truthiness (`paired_event_id`,
`completed_activity_id`, `completion_date`) use `""` for absent/`None`.
-/

structure Activity where
  id : String
  date : String
  type : String
  duration_seconds : Option ℚ
  training_stress_score : Option ℚ
  paired_event_id : String
  planned_event_id : Option String
  planned_match_confidence : Option ℚ
  deriving DecidableEq

structure Event where
  id : String
  start_date_local : String
  type : String
  name : String
  icu_training_load : Option ℚ
  moving_time : Option ℚ
  completed : Bool
  completed_activity_id : String
  completion_date : String
  deriving DecidableEq

/-- Placeholder for the unreachable `None` branch of Python's `next(...)`. -/
def junkActivity : Activity :=
  { id := "", date := "", type := "", duration_seconds := none,
    training_stress_score := none, paired_event_id := "",
    planned_event_id := none, planned_match_confidence := none }

/-! ## `workout_matcher.py` -/

/--
The type-match test of `_calculate_match_confidence` ("Ride"/"VirtualRide"
equivalent, case-insensitive).
-/
def type_matches (activity : Activity) (event : Event) : Bool :=
  let activity_type := lowerStr activity.type
  let event_type := lowerStr event.type
  activity_type == event_type ||
    ((activity_type == "ride" || activity_type == "virtualride") &&
      (event_type == "ride" || event_type == "virtualride"))

/--
`_calculate_match_confidence`: 0.50 for date only, 0.70 on a type match
("ride"/"virtualride" equivalent, case-insensitive), 0.95 / 0.85 on relative
TSS variance within 10% / within `tss_threshold`, guarded by Python truthiness
of both TSS values and positivity of the planned one.
-/
def calculate_match_confidence (activity : Activity) (event : Event)
    (tss_threshold : ℚ) : ℚ :=
  let type_match : Bool := type_matches activity event
  if !type_match then mkRat 1 2
  else
    match activity.training_stress_score, event.icu_training_load with
    | some activity_tss, some event_tss =>
      if !(activity_tss == qof 0) && !(event_tss == qof 0) && qltB (qof 0) event_tss then
        let tss_variance := qdiv (qabs (qsub activity_tss event_tss)) event_tss
        if qleB tss_variance (mkRat 1 10) then mkRat 19 20
        else if qleB tss_variance tss_threshold then mkRat 17 20
        else mkRat 7 10
      else mkRat 7 10
    | _, _ => mkRat 7 10

/-- The `event_lookup` dict comprehension of `_use_paired_event_id`. -/
def event_lookup (events : List Event) : List (String × Event) :=
  events.foldl (fun d e => dictInsert e.id e d) []

/-- One iteration of phase 1's activity loop (explicit state passing). -/
def p1a_step (lookup : List (String × Event))
    (st : List Activity × List Activity × List String) (activity : Activity) :
    List Activity × List Activity × List String :=
  if activity.paired_event_id ≠ "" ∧ dictHas activity.paired_event_id lookup = true then
    (st.1 ++ [{ activity with
        planned_event_id := some activity.paired_event_id,
        planned_match_confidence := some (qof 1) }],
      st.2.1, st.2.2 ++ [activity.paired_event_id])
  else (st.1, st.2.1 ++ [activity], st.2.2)

/-- One iteration of phase 1's event loop. -/
def p1e_step (matched_activities : List Activity) (matched_event_ids : List String)
    (st : List Event × List Event) (event : Event) : List Event × List Event :=
  if event.id ∈ matched_event_ids then
    let matching_activity :=
      (matched_activities.find? (fun a => a.planned_event_id == some event.id)).getD
        junkActivity
    (st.1 ++ [{ event with
        completed := true,
        completed_activity_id := matching_activity.id,
        completion_date := matching_activity.date }], st.2)
  else (st.1, st.2 ++ [{ event with completed := false }])

/--
`_use_paired_event_id`: phase-1 authoritative matching via the
provider-supplied `paired_event_id`.  Returns
`(matched_activities, matched_events, unmatched_activities, unmatched_events)`.
-/
def use_paired_event_id (activities : List Activity) (events : List Event) :
    List Activity × List Event × List Activity × List Event :=
  let lookup := event_lookup events
  let step1 := activities.foldl (p1a_step lookup) ([], [], [])
  let matched_activities := step1.1
  let unmatched_activities := step1.2.1
  let matched_event_ids := step1.2.2
  let step2 := events.foldl (p1e_step matched_activities matched_event_ids) ([], [])
  (matched_activities, step2.1, unmatched_activities, step2.2)

/-- The `events_by_date` index built at the top of `_fuzzy_match`. -/
def events_by_date (events : List Event) : List (String × List Event) :=
  events.foldl (fun d event =>
    match extract_date event.start_date_local with
    | none => d
    | some event_date =>
      match dictGet? event_date d with
      | none => dictInsert event_date [event] d
      | some lst => dictInsert event_date (lst ++ [event]) d) []

/-- One iteration of the best-candidate scan. -/
def bc_step (activity : Activity) (tss_threshold : ℚ) (matched_event_ids : List String)
    (st : Option Event × ℚ) (event : Event) : Option Event × ℚ :=
  if event.id ∈ matched_event_ids then st
  else
    let confidence := calculate_match_confidence activity event tss_threshold
    if qltB st.2 confidence then (some event, confidence) else st

/--
The best-candidate scan inside `_fuzzy_match`'s activity loop: fold over the
same-date events, skipping already-matched ids, keeping the first strict
maximum of the confidence (initial best `(None, 0.0)`).
-/
def best_candidate (activity : Activity) (tss_threshold : ℚ)
    (matched_event_ids : List String) (candidates : List Event) :
    Option Event × ℚ :=
  candidates.foldl (bc_step activity tss_threshold matched_event_ids) (none, qof 0)

/-- One iteration of the fuzzy-match activity loop. -/
def fz_step (ebd : List (String × List Event)) (tss_threshold : ℚ)
    (st : List Activity × List Event × List String) (activity : Activity) :
    List Activity × List Event × List String :=
  match extract_date activity.date with
  | none => st
  | some activity_date =>
    match dictGet? activity_date ebd with
    | none => st
    | some candidates =>
      let best := best_candidate activity tss_threshold st.2.2 candidates
      match best.1 with
      | none => st
      | some best_match =>
        if qleB (mkRat 1 2) best.2 then
          (st.1 ++ [{ activity with
              planned_event_id := some best_match.id,
              planned_match_confidence := some best.2 }],
            st.2.1 ++ [{ best_match with
              completed := true,
              completed_activity_id := activity.id,
              completion_date := activity.date }],
            st.2.2 ++ [best_match.id])
        else st

/--
`_fuzzy_match`: greedy date-bucketed matching of the remaining activities,
accepting the best candidate when its confidence is ≥ 0.50.
-/
def fuzzy_match (activities : List Activity) (events : List Event)
    (tss_threshold : ℚ) : List Activity × List Event :=
  let ebd := events_by_date events
  let step := activities.foldl (fz_step ebd tss_threshold) ([], [], [])
  (step.1, step.2.1)

/--
`match_workouts`: phase 1 (authoritative ids) then phase 2 (fuzzy), then the
originals that neither phase matched are passed through.
-/
def match_workouts (planned_events : List Event) (completed_activities : List Activity)
    (tss_threshold : ℚ) : List Activity × List Event :=
  let p1 := use_paired_event_id completed_activities planned_events
  let matched_activities := p1.1
  let matched_events := p1.2.1
  let unmatched_activities := p1.2.2.1
  let unmatched_events := p1.2.2.2
  let p2 := fuzzy_match unmatched_activities unmatched_events tss_threshold
  let fuzzy_matched_activities := p2.1
  let fuzzy_matched_events := p2.2
  (matched_activities ++ fuzzy_matched_activities ++
      unmatched_activities.filter
        (fun a => !(fuzzy_matched_activities.map Activity.id).contains a.id),
    matched_events ++ fuzzy_matched_events ++
      unmatched_events.filter
        (fun e => !(fuzzy_matched_events.map Event.id).contains e.id))

/-! ## Stable sorting (Python `list.sort(key=..., reverse=True)` and `sorted`) -/

/-- Insert keeping descending key order; equal keys keep earlier elements first. -/
def insertByKeyDesc {α : Type} (key : α → String) (x : α) : List α → List α
  | [] => [x]
  | y :: ys =>
    if strLeB (key y) (key x) then x :: y :: ys else y :: insertByKeyDesc key x ys

/-- Stable descending sort by a string key: Python `l.sort(key=key, reverse=True)`. -/
def sortByKeyDesc {α : Type} (key : α → String) (l : List α) : List α :=
  l.foldr (fun x acc => insertByKeyDesc key x acc) []

/-- Insert keeping ascending order. -/
def insertStrAsc (x : String) : List String → List String
  | [] => [x]
  | y :: ys => if strLeB x y then x :: y :: ys else y :: insertStrAsc x ys

/-- Python `sorted(keys)` (code-point lexicographic, ascending). -/
def sortStringsAsc (l : List String) : List String := l.foldr insertStrAsc []

/-! ## `data_sync.py`: the incremental merge

`datetime.fromisoformat` and `datetime.now()` are modelled by an abstract
timestamp domain `ℤ`: `parse` is the (partial) parse of the date part of a
record's date string, and `two_weeks_ago` is the timestamp
`datetime.now() - timedelta(days=14)` computed by the caller.
-/

/--
The keep-condition of the merge's first loop: an existing record survives when
its date part parses to something strictly older than the refresh boundary, or
does not parse at all (`except (ValueError, AttributeError): keep it to be
safe`).
-/
def mergeKeepB {α : Type} (dateOf : α → String) (parse : String → Option ℤ)
    (two_weeks_ago : ℤ) (r : α) : Bool :=
  match parse (splitTPart (dateOf r)) with
  | some record_date => decide (record_date < two_weeks_ago)
  | none => true

/--
Shared body of `_merge_activities` / `_merge_events` (the two Python functions
are line-for-line identical up to the field names `date` vs
`start_date_local`): keep existing records that are strictly older than the
refresh boundary or whose date does not parse, drop the rest, then overlay all
new records keyed by id, then sort by date string descending.
-/
def mergeKeyed {α : Type} (idOf : α → String) (dateOf : α → String)
    (parse : String → Option ℤ) (two_weeks_ago : ℤ)
    (existing new : List α) : List α :=
  let d1 := existing.foldl (fun d r =>
    if idOf r = "" then d
    else if mergeKeepB dateOf parse two_weeks_ago r then dictInsert (idOf r) r d
    else d) []
  let d2 := new.foldl (fun d r => if idOf r = "" then d else dictInsert (idOf r) r d) d1
  sortByKeyDesc dateOf (dictValues d2)

/-- `_merge_activities` from `data_sync.py`. -/
def merge_activities (parse : String → Option ℤ) (two_weeks_ago : ℤ)
    (existing new : List Activity) : List Activity :=
  mergeKeyed Activity.id Activity.date parse two_weeks_ago existing new

/-- `_merge_events` from `data_sync.py`. -/
def merge_events (parse : String → Option ℤ) (two_weeks_ago : ℤ)
    (existing new : List Event) : List Event :=
  mergeKeyed Event.id Event.start_date_local parse two_weeks_ago existing new

/-- The fields of `sync_metadata` that depend on the synced data (the
wall-clock timestamp and history log are omitted). -/
structure SyncMetadata where
  last_activity_date : Option String
  last_activity_id : Option String
  total_activities : Nat
  last_event_date : Option String
  last_event_id : Option String
  total_events : Nat
  deriving DecidableEq

/-- `_create_metadata` from `data_sync.py`: reads the FIRST element of each
list (relying on "activities are already sorted newest first"). -/
def create_metadata (activities : List Activity) (events : List Event) : SyncMetadata :=
  { last_activity_date := activities.head?.map Activity.date
    last_activity_id := activities.head?.map Activity.id
    total_activities := activities.length
    last_event_date := events.head?.map (fun e => splitTPart e.start_date_local)
    last_event_id := events.head?.map Event.id
    total_events := events.length }

/-! ## Rounding: Python `round(x, n)` (round-half-to-even), on exact rationals -/

/-- Floor of a rational (`Int.ediv` is floor division for a positive divisor). -/
def qfloor (x : ℚ) : ℤ := Int.ediv x.num (x.den : ℤ)

/-- Round to the nearest integer, ties to the even one. -/
def roundHalfEven (x : ℚ) : ℤ :=
  let f := qfloor x
  let r := qsub x (qof f)
  if qltB r (mkRat 1 2) then f
  else if qltB (mkRat 1 2) r then f + 1
  else if f % 2 = 0 then f else f + 1

/-- Python `round(x, digits)` modelled on exact rationals. -/
def pyRound (x : ℚ) (digits : ℕ) : ℚ :=
  let scale : ℤ := (10 : ℤ) ^ digits
  mkRat (roundHalfEven (qmul x (qof scale))) scale.toNat

/-! ## `index_builder.py` -/

structure PlannedEntry where
  event_id : String
  name : String
  type : String
  planned_tss : Option ℚ
  planned_duration_seconds : Option ℚ
  completed : Bool
  completed_activity_id : String
  deriving DecidableEq

structure ActualEntry where
  activity_id : String
  type : String
  actual_tss : Option ℚ
  actual_duration_seconds : Option ℚ
  matched_event_id : Option String
  match_confidence : Option ℚ
  variance_tss : Option ℚ
  variance_duration_seconds : Option ℚ
  completion_percentage : Option ℚ
  deriving DecidableEq

structure DateEntry where
  planned : List PlannedEntry
  actual : List ActualEntry
  deriving DecidableEq

def emptyDateEntry : DateEntry := { planned := [], actual := [] }

/-- The planned-side record appended by `build_date_index`. -/
def planned_entry (event : Event) : PlannedEntry :=
  { event_id := event.id
    name := event.name
    type := event.type
    planned_tss := event.icu_training_load
    planned_duration_seconds := event.moving_time
    completed := event.completed
    completed_activity_id := event.completed_activity_id }

/--
The actual-side record appended by `build_date_index`, including the
variance/completion computation guarded by `if matched_event_id:`, the event
lookup, `if actual_tss is not None and planned_tss:` and the final
`round(completion_percentage, 1) if completion_percentage else None`.
-/
def actual_entry (events : List Event) (activity : Activity) : ActualEntry :=
  let matched_event_id := activity.planned_event_id
  let actual_tss := activity.training_stress_score
  let actual_duration := activity.duration_seconds
  let vars : Option ℚ × Option ℚ × Option ℚ :=
    match matched_event_id with
    | some mid =>
      if mid ≠ "" then
        match events.find? (fun e => e.id == mid) with
        | some matching_event =>
          let vtss : Option ℚ × Option ℚ :=
            match actual_tss, matching_event.icu_training_load with
            | some av, some pv =>
              if pv ≠ 0 then (some (qsub av pv), some (qmul (qdiv av pv) (qof 100)))
              else (none, none)
            | _, _ => (none, none)
          let vdur : Option ℚ :=
            match actual_duration, matching_event.moving_time with
            | some ad, some pd => if pd ≠ 0 then some (qsub ad pd) else none
            | _, _ => none
          (vtss.1, vdur, vtss.2)
        | none => (none, none, none)
      else (none, none, none)
    | none => (none, none, none)
  { activity_id := activity.id
    type := activity.type
    actual_tss := actual_tss
    actual_duration_seconds := actual_duration
    matched_event_id := matched_event_id
    match_confidence := activity.planned_match_confidence
    variance_tss := vars.1
    variance_duration_seconds := vars.2.1
    completion_percentage :=
      match vars.2.2 with
      | some cp => if cp ≠ 0 then some (pyRound cp 1) else none
      | none => none }

/-- `build_date_index` from `index_builder.py`. -/
def build_date_index (activities : List Activity) (events : List Event) :
    List (String × DateEntry) :=
  let d1 := events.foldl (fun d event =>
    match extract_date event.start_date_local with
    | none => d
    | some date =>
      let cur := (dictGet? date d).getD emptyDateEntry
      dictInsert date { cur with planned := cur.planned ++ [planned_entry event] } d) []
  activities.foldl (fun d activity =>
    match extract_date activity.date with
    | none => d
    | some date =>
      let cur := (dictGet? date d).getD emptyDateEntry
      dictInsert date { cur with actual := cur.actual ++ [actual_entry events activity] } d) d1

structure WeekEntry where
  week_start : Option String
  planned_tss : ℚ
  actual_tss : ℚ
  planned_workouts : Nat
  completed_workouts : Nat
  compliance_rate : ℚ
  tss_adherence : ℚ
  deriving DecidableEq

def weekDefault : WeekEntry :=
  { week_start := none, planned_tss := qof 0, actual_tss := qof 0,
    planned_workouts := 0, completed_workouts := 0,
    compliance_rate := qof 0, tss_adherence := qof 0 }

/--
`build_week_index` from `index_builder.py`.  `isoCal` models
`datetime.strptime(date, "%Y-%m-%d").isocalendar()` rendered as `"YYYY-WXX"`,
and `weekStartOf` models `_get_week_start_date`; both are stdlib date
computations passed in as parameters.
-/
def build_week_index (isoCal : String → Option String)
    (weekStartOf : String → Option String)
    (activities : List Activity) (events : List Event) :
    List (String × WeekEntry) :=
  let get_iso_week := fun s => (extract_date s).bind isoCal
  let d1 := events.foldl (fun d event =>
    match get_iso_week event.start_date_local with
    | none => d
    | some week =>
      let cur := (dictGet? week d).getD weekDefault
      let cur :=
        if cur.week_start = none ∨ cur.week_start = some "" then
          { cur with week_start := weekStartOf week }
        else cur
      let planned_tss :=
        match event.icu_training_load with
        | some v => v
        | none => qof 0
      let cur := { cur with
        planned_tss := qadd cur.planned_tss planned_tss,
        planned_workouts := cur.planned_workouts + 1 }
      let cur :=
        if event.completed then
          { cur with completed_workouts := cur.completed_workouts + 1 }
        else cur
      dictInsert week cur d) []
  let d2 := activities.foldl (fun d activity =>
    match get_iso_week activity.date with
    | none => d
    | some week =>
      let cur := (dictGet? week d).getD weekDefault
      let actual :=
        match activity.training_stress_score with
        | some v => v
        | none => qof 0
      dictInsert week { cur with actual_tss := qadd cur.actual_tss actual } d) d1
  d2.map (fun kv =>
    let w := kv.2
    let w :=
      if 0 < w.planned_workouts then
        { w with compliance_rate :=
            pyRound (qdiv (qof w.completed_workouts) (qof w.planned_workouts)) 3 }
      else w
    let w :=
      if qltB (qof 0) w.planned_tss then
        { w with tss_adherence := pyRound (qdiv w.actual_tss w.planned_tss) 3 }
      else w
    (kv.1, w))

structure TypeOccurrence where
  date : Option String
  event_id : String
  activity_id : String
  completed : Bool
  deriving DecidableEq

/--
`build_type_index` from `index_builder.py`.  An absent `name`/`type` key is
modelled as `""` (so the `'Unknown'` default for a *missing key* is out of the
model; an empty-string `name` falls back to the type tag exactly as in the
source).
-/
def build_type_index (activities : List Activity) (events : List Event) :
    List (String × List TypeOccurrence) :=
  let _ := activities
  events.foldl (fun d event =>
    let workout_name := if event.name ≠ "" then event.name else event.type
    let occ : TypeOccurrence :=
      { date := extract_date event.start_date_local
        event_id := event.id
        activity_id := event.completed_activity_id
        completed := event.completed }
    match dictGet? workout_name d with
    | none => dictInsert workout_name [occ] d
    | some lst => dictInsert workout_name (lst ++ [occ]) d) []

/-- The three data-dependent indices of `build_workout_index` (the
`last_updated` wall-clock field is outside the model). -/
structure WorkoutIndex where
  by_date : List (String × DateEntry)
  by_week : List (String × WeekEntry)
  by_type : List (String × List TypeOccurrence)
  deriving DecidableEq

def build_workout_index (isoCal weekStartOf : String → Option String)
    (activities : List Activity) (events : List Event) : WorkoutIndex :=
  { by_date := build_date_index activities events
    by_week := build_week_index isoCal weekStartOf activities events
    by_type := build_type_index activities events }

/-! ## The sync pipeline (`sync_athlete_data`, data-flow core) -/

structure SyncOutput where
  activities : List Activity
  events : List Event
  index : WorkoutIndex
  metadata : SyncMetadata
  deriving DecidableEq

/--
One incremental `sync_athlete_data` run as a function of the previously
persisted records and the freshly fetched ones: merge, match, index, metadata
(fetching, power curves and file I/O stay outside the model).
-/
def sync_incremental (parse : String → Option ℤ) (two_weeks_ago : ℤ)
    (isoCal weekStartOf : String → Option String) (tss_threshold : ℚ)
    (existing_activities new_activities : List Activity)
    (existing_events new_events : List Event) : SyncOutput :=
  let activities := merge_activities parse two_weeks_ago existing_activities new_activities
  let events := merge_events parse two_weeks_ago existing_events new_events
  let m := match_workouts events activities tss_threshold
  { activities := m.1
    events := m.2
    index := build_workout_index isoCal weekStartOf m.1 m.2
    metadata := create_metadata m.1 m.2 }

/-- One full `sync_athlete_data` run: the fetched lists are used as-is (no
merge with persisted data), then match, index, metadata. -/
def sync_full (isoCal weekStartOf : String → Option String) (tss_threshold : ℚ)
    (fetched_activities : List Activity) (fetched_events : List Event) : SyncOutput :=
  let m := match_workouts fetched_events fetched_activities tss_threshold
  { activities := m.1
    events := m.2
    index := build_workout_index isoCal weekStartOf m.1 m.2
    metadata := create_metadata m.1 m.2 }

/-! ## `dashboard_service.py`: `_calculate_daily_ctl`

Dates are modelled by an abstract day index `ℕ`: `parse` models
`datetime.strptime(s, "%Y-%m-%d")` on the date part, `fmt` models
`strftime("%Y-%m-%d")`, and `today` is `datetime.now()`'s day.
-/

/-- The per-day TSS aggregation loop of `_calculate_daily_ctl`. -/
def aggregate_daily_tss (workout_history : List Activity) : List (String × ℚ) :=
  workout_history.foldl (fun d w =>
    let date_str := splitTPart w.date
    let tss :=
      match w.training_stress_score with
      | some v => v
      | none => qof 0
    match dictGet? date_str d with
    | none => dictInsert date_str tss d
    | some cur => dictInsert date_str (qadd cur tss) d) []

/-- `_calculate_daily_ctl` (the in-memory computation; file loading aside). -/
def calculate_daily_ctl (parse : String → Option ℕ) (fmt : ℕ → String)
    (today : ℕ) (workout_history : List Activity) : List (String × ℚ) :=
  let daily_tss := aggregate_daily_tss workout_history
  if daily_tss.isEmpty then []
  else
    match parse ((sortStringsAsc (dictKeys daily_tss)).headD "") with
    | none => []
    | some start_date =>
      let days :=
        if start_date ≤ today then
          (List.range (today - start_date + 1)).map (fun i => start_date + i)
        else []
      let step := days.foldl (fun (st : ℚ × List (String × ℚ)) d =>
        let curr_date_str := fmt d
        let day_tss := (dictGet? curr_date_str daily_tss).getD (qof 0)
        let ctl :=
          if st.1 == qof 0 && qltB (qof 0) day_tss then day_tss
          else qadd st.1 (qdiv (qsub day_tss st.1) (qof 42))
        (ctl, dictInsert curr_date_str ctl st.2)) (qof 0, [])
      step.2

/-! ## Concrete records used by witnesses and counterexamples -/

def wOld : Activity :=
  { id := "w_old"
    date := "2024-03-01T07:00:00"
    type := "Ride"
    duration_seconds := none
    training_stress_score := some (qof 50)
    paired_event_id := ""
    planned_event_id := none
    planned_match_confidence := none }

def wMid : Activity :=
  { id := "w_mid"
    date := "2024-03-08T07:00:00"
    type := "Ride"
    duration_seconds := none
    training_stress_score := some (qof 60)
    paired_event_id := ""
    planned_event_id := none
    planned_match_confidence := none }

def wNew : Activity :=
  { id := "w_new"
    date := "2024-03-08T09:00:00"
    type := "Ride"
    duration_seconds := none
    training_stress_score := some (qof 70)
    paired_event_id := ""
    planned_event_id := none
    planned_match_confidence := none }

def wparse : String → Option ℤ := fun s =>
  if s = "2024-03-01" then some 1 else if s = "2024-03-08" then some 8 else none

/-! ## Claim-side confidence definitions (refinement targets for C2) -/

/--
Written from the claim text of C2, NOT from the source: base 0.50; 0.70 on a
type match; and, *if type matches and both planned and actual TSS are known and
the planned TSS is positive*, 0.95 / 0.85 / 0.70 by relative TSS variance.
"Known" is read as: the field is present and non-null.
-/
def claimed_match_confidence (activity : Activity) (event : Event) (t : ℚ) : ℚ :=
  if !(type_matches activity event) then 1/2
  else
    match activity.training_stress_score, event.icu_training_load with
    | some activity_tss, some event_tss =>
      if 0 < event_tss then
        if |activity_tss - event_tss| / event_tss ≤ 1/10 then 19/20
        else if |activity_tss - event_tss| / event_tss ≤ t then 17/20
        else 7/10
      else 7/10
    | _, _ => 7/10

/--
The amended claim of C2: as `claimed_match_confidence`, but both TSS values
must in addition be *non-zero* (Python truthiness) for the variance bands to
apply.
-/
def amended_match_confidence (activity : Activity) (event : Event) (t : ℚ) : ℚ :=
  if !(type_matches activity event) then 1/2
  else
    match activity.training_stress_score, event.icu_training_load with
    | some activity_tss, some event_tss =>
      if activity_tss ≠ 0 ∧ event_tss ≠ 0 ∧ 0 < event_tss then
        if |activity_tss - event_tss| / event_tss ≤ 1/10 then 19/20
        else if |activity_tss - event_tss| / event_tss ≤ t then 17/20
        else 7/10
      else 7/10
    | _, _ => 7/10

def cxA0 : Activity :=
  { id := "cx_a0"
    date := "2024-03-11T09:00:00"
    type := "Ride"
    duration_seconds := none
    training_stress_score := some (qof 0)
    paired_event_id := ""
    planned_event_id := none
    planned_match_confidence := none }

def cxE10 : Event :=
  { id := "cx_e10"
    start_date_local := "2024-03-11T08:00:00"
    type := "Ride"
    name := "W"
    icu_training_load := some (qof 10)
    moving_time := none
    completed := false
    completed_activity_id := ""
    completion_date := "" }

/-! Records for the C2 example scenario (activity `A2`, events `E2`, `E3`). -/

def exA2 : Activity :=
  { id := "a2"
    date := "2024-03-11T09:00:00"
    type := "Ride"
    duration_seconds := none
    training_stress_score := some (qof 60)
    paired_event_id := ""
    planned_event_id := none
    planned_match_confidence := none }

def exE2 : Event :=
  { id := "e2"
    start_date_local := "2024-03-11T08:00:00"
    type := "Ride"
    name := "Endurance"
    icu_training_load := some (qof 58)
    moving_time := none
    completed := false
    completed_activity_id := ""
    completion_date := "" }

def exE3 : Event :=
  { id := "e3"
    start_date_local := "2024-03-11T10:00:00"
    type := "Run"
    name := "Run"
    icu_training_load := some (qof 60)
    moving_time := none
    completed := false
    completed_activity_id := ""
    completion_date := "" }

/-! Records for the C8 counterexample (relative vs absolute TSS closeness). -/

def mx200 : Activity :=
  { id := "mx"
    date := "2024-03-11T09:00:00"
    type := "Ride"
    duration_seconds := none
    training_stress_score := some (qof 200)
    paired_event_id := ""
    planned_event_id := none
    planned_match_confidence := none }

def eNear : Event :=
  { id := "near"
    start_date_local := "2024-03-11T08:00:00"
    type := "Ride"
    name := "Near"
    icu_training_load := some (qof 181)
    moving_time := none
    completed := false
    completed_activity_id := ""
    completion_date := "" }

def eFar : Event :=
  { id := "far"
    start_date_local := "2024-03-11T10:00:00"
    type := "Ride"
    name := "Far"
    icu_training_load := some (qof 220)
    moving_time := none
    completed := false
    completed_activity_id := ""
    completion_date := "" }

def cxThreshold : ℚ := qof 1

/-! ## Closed forms for phase 1 and structure of the fuzzy fold -/

/-- Phase 1's match condition for an activity. -/
def p1_condB (events : List Event) (a : Activity) : Bool :=
  decide (a.paired_event_id ≠ "" ∧ dictHas a.paired_event_id (event_lookup events) = true)

/-- Phase 1's decoration of a matched activity. -/
def p1_decorate (a : Activity) : Activity :=
  { a with
      planned_event_id := some a.paired_event_id
      planned_match_confidence := some (qof 1) }

/-- Phase 1's decoration of a matched event. -/
def p1_complete (mA : List Activity) (e : Event) : Event :=
  { e with
      completed := true
      completed_activity_id :=
        ((mA.find? (fun a => a.planned_event_id == some e.id)).getD junkActivity).id
      completion_date :=
        ((mA.find? (fun a => a.planned_event_id == some e.id)).getD junkActivity).date }

/-- One step of the `events_by_date` accumulation. -/
def ebd_step (dct : List (String × List Event)) (event : Event) :
    List (String × List Event) :=
  match extract_date event.start_date_local with
  | none => dct
  | some event_date =>
    match dictGet? event_date dct with
    | none => dictInsert event_date [event] dct
    | some lst => dictInsert event_date (lst ++ [event]) dct

/-! ## Named components of the matcher's closed form -/

/-- Phase 1's matched activities (closed form). -/
def p1mA (activities : List Activity) (events : List Event) : List Activity :=
  (activities.filter (p1_condB events)).map p1_decorate

/-- Phase 1's matched event ids (closed form). -/
def p1mIds (activities : List Activity) (events : List Event) : List String :=
  (activities.filter (p1_condB events)).map Activity.paired_event_id

/-- Phase 1's matched events (closed form). -/
def p1mE (activities : List Activity) (events : List Event) : List Event :=
  (events.filter (fun e => decide (e.id ∈ p1mIds activities events))).map
    (p1_complete (p1mA activities events))

/-- Phase 1's unmatched activities (closed form). -/
def p1uA (activities : List Activity) (events : List Event) : List Activity :=
  activities.filter (fun a => !(p1_condB events a))

/-- Phase 1's unmatched events (closed form): `completed` reset, all other
fields (including any stale `completed_activity_id`) untouched. -/
def p1uE (activities : List Activity) (events : List Event) : List Event :=
  (events.filter (fun e => !(decide (e.id ∈ p1mIds activities events)))).map
    (fun e => { e with completed := false })

/-- An input activity carrying annotations written by an earlier matcher pass
(`planned_event_id` already set) but no current pairing id. -/
def aStale : Activity :=
  { id := "a_stale"
    date := "2024-03-05T08:00:00"
    type := "Ride"
    duration_seconds := none
    training_stress_score := some (qof 100)
    paired_event_id := ""
    planned_event_id := some "e_old"
    planned_match_confidence := some (qof 1) }

/-- An input event carrying completion annotations written by an earlier
matcher pass. -/
def eStale : Event :=
  { id := "e_stale"
    start_date_local := "2024-03-06T10:00:00"
    type := "Ride"
    name := "Stale"
    icu_training_load := some (qof 100)
    moving_time := none
    completed := true
    completed_activity_id := "a_old"
    completion_date := "2024-01-01T10:00:00" }

/-! ## Concrete sync scenarios -/

/-- A date parser that recognises nothing (all dates kept defensively). -/
def noParse : String → Option ℤ := fun _ => none

/-- A calendar oracle that recognises nothing (week index stays empty). -/
def noCal : String → Option String := fun _ => none

/-- Older activity, provider-paired to event `e1`. -/
def aOld : Activity :=
  { id := "a_old"
    date := "2024-03-01T08:00:00"
    type := "Ride"
    duration_seconds := none
    training_stress_score := some (qof 50)
    paired_event_id := "e1"
    planned_event_id := none
    planned_match_confidence := none }

/-- Newer activity, no pairing id. -/
def aNew : Activity :=
  { id := "a_new"
    date := "2024-03-10T08:00:00"
    type := "Ride"
    duration_seconds := none
    training_stress_score := some (qof 70)
    paired_event_id := ""
    planned_event_id := none
    planned_match_confidence := none }

/-- The event that `aOld` is provider-paired to. -/
def e1ev : Event :=
  { id := "e1"
    start_date_local := "2024-03-01T00:00:00"
    type := "Ride"
    name := "W1"
    icu_training_load := some (qof 50)
    moving_time := none
    completed := false
    completed_activity_id := ""
    completion_date := "" }

/-- Morning activity, fuzzy-matchable. -/
def ca1 : Activity :=
  { id := "a1"
    date := "2024-02-20T08:00:00"
    type := "Ride"
    duration_seconds := none
    training_stress_score := some (qof 100)
    paired_event_id := ""
    planned_event_id := none
    planned_match_confidence := none }

/-- Evening activity of the same day. -/
def ca2 : Activity :=
  { id := "a2"
    date := "2024-02-20T18:00:00"
    type := "Ride"
    duration_seconds := none
    training_stress_score := some (qof 100)
    paired_event_id := ""
    planned_event_id := none
    planned_match_confidence := none }

/-- Planned key workout (TSS 100). -/
def ce1 : Event :=
  { id := "e1"
    start_date_local := "2024-02-20T10:00:00"
    type := "Ride"
    name := "Key"
    icu_training_load := some (qof 100)
    moving_time := none
    completed := false
    completed_activity_id := ""
    completion_date := "" }

/-- Planned easy workout (TSS 50). -/
def ce2 : Event :=
  { id := "e2"
    start_date_local := "2024-02-20T11:00:00"
    type := "Ride"
    name := "Easy"
    icu_training_load := some (qof 50)
    moving_time := none
    completed := false
    completed_activity_id := ""
    completion_date := "" }

/-- Parses exactly the one date of the scenario, to day 0. -/
def cParse : String → Option ℤ := fun s => if s = "2024-02-20" then some 0 else none

/-- First sync run: a full sync of the four records. -/
def syncRun1 : SyncOutput := sync_full noCal noCal (mkRat 1 5) [ca1, ca2] [ce1, ce2]

/-- Second sync run: incremental, the fetch returning exactly the same four
records as the first run's fetch (no new remote data); the boundary `-1` puts
every record inside the re-fetch window. -/
def syncRun2 : SyncOutput :=
  sync_incremental cParse (-1) noCal noCal (mkRat 1 5)
    syncRun1.activities [ca1, ca2] syncRun1.events [ce1, ce2]

/-- A matched activity whose actual TSS is exactly 0. -/
def cxA6 : Activity :=
  { id := "A0"
    date := "2024-03-10T07:00:00"
    type := "Ride"
    duration_seconds := some (qof 3600)
    training_stress_score := some (qof 0)
    paired_event_id := "E1"
    planned_event_id := some "E1"
    planned_match_confidence := some (qof 1) }

/-- The matched planned event with planned TSS 75 and planned duration 3500s
(known and available). -/
def cxE6 : Event :=
  { id := "E1"
    start_date_local := "2024-03-10T09:00:00"
    type := "Ride"
    name := "Planned"
    icu_training_load := some (qof 75)
    moving_time := some (qof 3500)
    completed := true
    completed_activity_id := "A0"
    completion_date := "2024-03-10T07:00:00" }

/-- The C6 example scenario: activity `A1` (TSS 80, duration 3600s),
provider-paired to planned event `E1` (planned TSS 75, duration 3500s). -/
def exA1 : Activity :=
  { id := "A1"
    date := "2024-03-10T07:00:00"
    type := "Ride"
    duration_seconds := some (qof 3600)
    training_stress_score := some (qof 80)
    paired_event_id := "E1"
    planned_event_id := none
    planned_match_confidence := none }

/-- The C6 example's planned event `E1` (planned TSS 75). -/
def exE1 : Event :=
  { id := "E1"
    start_date_local := "2024-03-10T09:00:00"
    type := "Ride"
    name := "Planned"
    icu_training_load := some (qof 75)
    moving_time := some (qof 3500)
    completed := false
    completed_activity_id := ""
    completion_date := "" }

/-! ## Week-index structure -/

/-- One step of `build_week_index`'s event aggregation loop. -/
def bw_estep (isoCal weekStartOf : String → Option String)
    (d : List (String × WeekEntry)) (event : Event) : List (String × WeekEntry) :=
  match (extract_date event.start_date_local).bind isoCal with
  | none => d
  | some week =>
    let cur := (dictGet? week d).getD weekDefault
    let cur :=
      if cur.week_start = none ∨ cur.week_start = some "" then
        { cur with week_start := weekStartOf week }
      else cur
    let planned_tss :=
      match event.icu_training_load with
      | some v => v
      | none => qof 0
    let cur := { cur with
      planned_tss := qadd cur.planned_tss planned_tss,
      planned_workouts := cur.planned_workouts + 1 }
    let cur :=
      if event.completed then
        { cur with completed_workouts := cur.completed_workouts + 1 }
      else cur
    dictInsert week cur d

/-- One step of `build_week_index`'s activity aggregation loop. -/
def bw_astep (isoCal : String → Option String)
    (d : List (String × WeekEntry)) (activity : Activity) : List (String × WeekEntry) :=
  match (extract_date activity.date).bind isoCal with
  | none => d
  | some week =>
    let cur := (dictGet? week d).getD weekDefault
    let actual :=
      match activity.training_stress_score with
      | some v => v
      | none => qof 0
    dictInsert week { cur with actual_tss := qadd cur.actual_tss actual } d

/-- The final per-week rate computation of `build_week_index`. -/
def bw_final (kv : String × WeekEntry) : String × WeekEntry :=
  let w := kv.2
  let w :=
    if 0 < w.planned_workouts then
      { w with compliance_rate :=
          pyRound (qdiv (qof w.completed_workouts) (qof w.planned_workouts)) 3 }
    else w
  let w :=
    if qltB (qof 0) w.planned_tss then
      { w with tss_adherence := pyRound (qdiv w.actual_tss w.planned_tss) 3 }
    else w
  (kv.1, w)

/-- Invariant of the aggregation folds: completions never exceed plans and the
rates still hold their zero defaults. -/
def weekEntryInv (w : WeekEntry) : Prop :=
  w.completed_workouts ≤ w.planned_workouts ∧
  w.compliance_rate = qof 0 ∧ w.tss_adherence = qof 0

/-- Calendar oracle for the witness week. -/
def isoCal7 : String → Option String :=
  fun s => if s = "2024-03-10" then some "2024-W10" else none

/-- Week-start oracle for the witness week. -/
def weekStart7 : String → Option String := fun _ => some "2024-03-04"

/-- The witness event, completed. -/
def ev7c : Event :=
  { id := "E1"
    start_date_local := "2024-03-10T09:00:00"
    type := "Ride"
    name := "Planned"
    icu_training_load := some (qof 75)
    moving_time := none
    completed := true
    completed_activity_id := "A1"
    completion_date := "2024-03-10T07:00:00" }

/-- The week entry produced for the witness inputs. -/
def wk7val : WeekEntry :=
  { week_start := some "2024-03-04"
    planned_tss := qof 75
    actual_tss := qof 80
    planned_workouts := 1
    completed_workouts := 1
    compliance_rate := qof 1
    tss_adherence := mkRat 1067 1000 }

/-! ## Per-day TSS aggregation, characterised -/

/-- The TSS contributed by one activity (`None` counts as 0). -/
def tssOf (w : Activity) : ℚ :=
  match w.training_stress_score with
  | some v => v
  | none => qof 0

/-- Left fold of `qadd` over activities, from a seed. -/
def addTss (c : ℚ) (l : List Activity) : ℚ :=
  l.foldl (fun acc w => qadd acc (tssOf w)) c

/-- The total TSS of the activities dated (by date part) `ds`. -/
def dayTss (hist : List Activity) (ds : String) : ℚ :=
  addTss (qof 0) (hist.filter (fun w => decide (splitTPart w.date = ds)))

/-- One step of the aggregation loop. -/
def ag_step (d : List (String × ℚ)) (w : Activity) : List (String × ℚ) :=
  let date_str := splitTPart w.date
  match dictGet? date_str d with
  | none => dictInsert date_str (tssOf w) d
  | some cur => dictInsert date_str (qadd cur (tssOf w)) d

/-! ## The CTL loop, characterised -/

/-- One iteration of the daily-CTL loop (explicit state passing). -/
def ctl_loop_step (daily : List (String × ℚ)) (fmt : ℕ → String)
    (st : ℚ × List (String × ℚ)) (d : ℕ) : ℚ × List (String × ℚ) :=
  let curr_date_str := fmt d
  let day_tss := (dictGet? curr_date_str daily).getD (qof 0)
  let ctl :=
    if st.1 == qof 0 && qltB (qof 0) day_tss then day_tss
    else qadd st.1 (qdiv (qsub day_tss st.1) (qof 42))
  (ctl, dictInsert curr_date_str ctl st.2)

/-- The claim's recurrence: seed the EMA with the day's TSS while the running
value is exactly zero and the TSS is positive, else add `(tss − ema)/42`. -/
def ctlRec (c t : ℚ) : ℚ := if c = 0 ∧ 0 < t then t else c + (t - c) / 42

/-- The EMA after `i` days starting from seed `c` at day `start`. -/
def ctlFrom (hist : List Activity) (fmt : ℕ → String) (c : ℚ) (start : ℕ) : ℕ → ℚ
  | 0 => c
  | i + 1 => ctlRec (ctlFrom hist fmt c start i) (dayTss hist (fmt (start + i)))

/-- The list of points the loop emits starting from a given running value. -/
def ctl_points (daily : List (String × ℚ)) (fmt : ℕ → String) :
    ℚ → List ℕ → List (String × ℚ)
  | _, [] => []
  | c, d :: ds =>
    (fmt d, (ctl_loop_step daily fmt (c, []) d).1) ::
      ctl_points daily fmt ((ctl_loop_step daily fmt (c, []) d).1) ds

/-- Witness parser: the three March days, as day numbers 0, 1, 2. -/
def parse9 : String → Option ℕ := fun s =>
  if s = "2024-03-01" then some 0
  else if s = "2024-03-02" then some 1
  else if s = "2024-03-03" then some 2
  else none

/-- Witness formatter (inverse of `parse9` on 0, 1, 2). -/
def fmt9 : ℕ → String := fun n =>
  if n = 0 then "2024-03-01"
  else if n = 1 then "2024-03-02"
  else if n = 2 then "2024-03-03"
  else ""

/-- Witness activity: TSS 10 on the first day. -/
def a9 : Activity :=
  { id := "a9"
    date := "2024-03-01T08:00:00"
    type := "Ride"
    duration_seconds := none
    training_stress_score := some (qof 10)
    paired_event_id := ""
    planned_event_id := none
    planned_match_confidence := none }

/-! ## Theorems -/

theorem qof_eq (n : ℤ) : qof n = (n : ℚ) := by
  simp [qof, Rat.mkRat_eq_div]

theorem qden_cast_ne {a : ℚ} : ((a.den : ℚ)) ≠ 0 := by
  exact_mod_cast a.den_nz

theorem qadd_eq (a b : ℚ) : qadd a b = a + b := by
  conv_rhs => rw [← Rat.num_div_den a, ← Rat.num_div_den b]
  rw [div_add_div _ _ (qden_cast_ne (a := a)) (qden_cast_ne (a := b))]
  rw [qadd, Rat.mkRat_eq_div]
  push_cast
  ring_nf

theorem qsub_eq (a b : ℚ) : qsub a b = a - b := by
  conv_rhs => rw [← Rat.num_div_den a, ← Rat.num_div_den b]
  rw [div_sub_div _ _ (qden_cast_ne (a := a)) (qden_cast_ne (a := b))]
  rw [qsub, Rat.mkRat_eq_div]
  push_cast
  ring_nf

theorem qmul_eq (a b : ℚ) : qmul a b = a * b := by
  conv_rhs => rw [← Rat.num_div_den a, ← Rat.num_div_den b]
  rw [div_mul_div_comm, qmul, Rat.mkRat_eq_div]
  push_cast
  ring_nf

theorem qdiv_aux (a b : ℚ) :
    ((a.num * b.den : ℤ) : ℚ) / ((a.den * b.num : ℤ) : ℚ) = a / b := by
  conv_rhs =>
    rw [← Rat.num_div_den a, ← Rat.num_div_den b, div_eq_mul_inv, inv_div,
      div_mul_div_comm]
  push_cast
  ring_nf

theorem qdiv_eq (a b : ℚ) : qdiv a b = a / b := by
  rcases le_or_lt 0 b.num with h | h
  · rw [qdiv, if_pos h, Rat.mkRat_eq_div, ← qdiv_aux a b]
    have h2 : ((a.den * b.num.toNat : ℕ) : ℚ) = ((a.den * b.num : ℤ) : ℚ) := by
      have h3 : ((a.den * b.num.toNat : ℕ) : ℤ) = (a.den * b.num : ℤ) := by
        push_cast
        rw [Int.toNat_of_nonneg h]
      exact_mod_cast h3
    rw [h2]
  · rw [qdiv, if_neg (by omega), Rat.mkRat_eq_div, ← qdiv_aux a b]
    have h2 : ((a.den * (-b.num).toNat : ℕ) : ℚ) = -(((a.den * b.num : ℤ)) : ℚ) := by
      have h3 : ((a.den * (-b.num).toNat : ℕ) : ℤ) = -(a.den * b.num : ℤ) := by
        push_cast
        rw [Int.toNat_of_nonneg (by omega : (0:ℤ) ≤ -b.num)]
        ring
      exact_mod_cast h3
    rw [h2]
    rw [div_neg, ← neg_div]
    norm_cast
    rw [neg_neg]

theorem qabs_eq (a : ℚ) : qabs a = |a| := by
  rw [qabs, Rat.mkRat_eq_div]
  rcases le_or_lt 0 a.num with h | h
  · rw [abs_of_nonneg]
    · conv_rhs => rw [← Rat.num_div_den a]
      congr 1
      exact_mod_cast Int.natAbs_of_nonneg h
    · rw [← Rat.num_div_den a]
      positivity
  · rw [abs_of_neg]
    · conv_rhs => rw [← Rat.num_div_den a, ← neg_div]
      congr 1
      have h2 : (a.num.natAbs : ℤ) = -a.num := Int.ofNat_natAbs_of_nonpos (le_of_lt h)
      exact_mod_cast congrArg (fun z : ℤ => (z : ℚ)) h2
    · rw [← Rat.num_div_den a]
      apply div_neg_of_neg_of_pos
      · exact_mod_cast h
      · exact_mod_cast Nat.pos_of_ne_zero a.den_nz

theorem qleB_iff (a b : ℚ) : qleB a b = true ↔ a ≤ b := by
  rw [qleB, decide_eq_true_iff, Rat.le_def]

theorem qltB_iff (a b : ℚ) : qltB a b = true ↔ a < b := by
  rw [qltB, decide_eq_true_iff, Rat.lt_def]

theorem qleB_eq_decide (a b : ℚ) : qleB a b = decide (a ≤ b) := by
  rcases h : qleB a b with _ | _
  · have : ¬ a ≤ b := fun hc => by
      rw [← qleB_iff] at hc
      rw [h] at hc
      exact Bool.false_ne_true hc
    simp [this]
  · have : a ≤ b := (qleB_iff a b).1 h
    simp [this]

theorem qltB_eq_decide (a b : ℚ) : qltB a b = decide (a < b) := by
  rcases h : qltB a b with _ | _
  · have : ¬ a < b := fun hc => by
      rw [← qltB_iff] at hc
      rw [h] at hc
      exact Bool.false_ne_true hc
    simp [this]
  · have : a < b := (qltB_iff a b).1 h
    simp [this]

theorem lexLtB_irrefl (l : List Char) : lexLtB l l = false := by
  induction l with
  | nil => rfl
  | cons c cs ih => simp [lexLtB, ih]

/-! ## Permutation and lookup lemmas for the sorting and dict models -/

theorem insertByKeyDesc_perm {α : Type} (key : α → String) (x : α) (l : List α) :
    (insertByKeyDesc key x l).Perm (x :: l) := by
  induction l with
  | nil => simp [insertByKeyDesc]
  | cons y ys ih =>
    rw [insertByKeyDesc]
    by_cases h : strLeB (key y) (key x) = true
    · rw [if_pos h]
    · rw [if_neg h]
      exact (ih.cons y).trans (List.Perm.swap x y ys)

theorem sortByKeyDesc_perm {α : Type} (key : α → String) (l : List α) :
    (sortByKeyDesc key l).Perm l := by
  induction l with
  | nil => simp [sortByKeyDesc]
  | cons x xs ih =>
    have h1 : sortByKeyDesc key (x :: xs) = insertByKeyDesc key x (sortByKeyDesc key xs) := rfl
    rw [h1]
    exact (insertByKeyDesc_perm key x _).trans (ih.cons x)

theorem mem_sortByKeyDesc {α : Type} (key : α → String) (l : List α) (a : α) :
    a ∈ sortByKeyDesc key l ↔ a ∈ l :=
  (sortByKeyDesc_perm key l).mem_iff

theorem dictGet?_insert_self {α : Type} (k : String) (v : α) (d : List (String × α)) :
    dictGet? k (dictInsert k v d) = some v := by
  induction d with
  | nil => simp [dictInsert, dictGet?]
  | cons kv rest ih =>
    obtain ⟨k2, v2⟩ := kv
    rw [dictInsert]
    by_cases h : k2 = k
    · simp [h, dictGet?]
    · rw [if_neg h, dictGet?, if_neg h]
      exact ih

theorem dictGet?_insert_ne {α : Type} {k k2 : String} (v : α) (d : List (String × α))
    (h : k2 ≠ k) : dictGet? k2 (dictInsert k v d) = dictGet? k2 d := by
  induction d with
  | nil => simp [dictInsert, dictGet?, Ne.symm h]
  | cons kv rest ih =>
    obtain ⟨k3, v3⟩ := kv
    rw [dictInsert]
    by_cases h3 : k3 = k
    · subst h3
      simp [dictGet?, Ne.symm h, h]
    · rw [if_neg h3, dictGet?, dictGet?]
      by_cases h4 : k3 = k2
      · simp [h4]
      · rw [if_neg h4, if_neg h4]
        exact ih

theorem dictKeys_cons {α : Type} (k : String) (v : α) (d : List (String × α)) :
    dictKeys ((k, v) :: d) = k :: dictKeys d := rfl

theorem dictKeys_insert {α : Type} (k : String) (v : α) (d : List (String × α)) :
    dictKeys (dictInsert k v d) =
      if k ∈ dictKeys d then dictKeys d else dictKeys d ++ [k] := by
  induction d with
  | nil => simp [dictInsert, dictKeys]
  | cons kv rest ih =>
    obtain ⟨k2, v2⟩ := kv
    rw [dictInsert]
    by_cases h : k2 = k
    · subst h
      simp [dictKeys_cons]
    · rw [if_neg h]
      have hmem : k ∈ dictKeys ((k2, v2) :: rest) ↔ k ∈ dictKeys rest := by
        simp [dictKeys_cons, Ne.symm h]
    
      by_cases h2 : k ∈ dictKeys rest
      · rw [if_pos (hmem.2 h2), dictKeys_cons, dictKeys_cons, ih, if_pos h2]
      · rw [if_neg (fun hc => h2 (hmem.1 hc)), dictKeys_cons, dictKeys_cons, ih,
          if_neg h2]
        rfl

theorem dictKeys_nodup_insert {α : Type} (k : String) (v : α) (d : List (String × α))
    (h : (dictKeys d).Nodup) : (dictKeys (dictInsert k v d)).Nodup := by
  rw [dictKeys_insert]
  by_cases h2 : k ∈ dictKeys d
  · simpa [h2] using h
  · simp only [if_neg h2]
    simpa [List.nodup_append, h2] using h

theorem dictGet?_eq_some_of_mem {α : Type} {k : String} {v : α} :
    ∀ {d : List (String × α)}, (dictKeys d).Nodup → (k, v) ∈ d →
      dictGet? k d = some v := by
  intro d
  induction d with
  | nil =>
    intro _ hm
    simp at hm
  | cons kv rest ih =>
    intro hn hm
    obtain ⟨k2, v2⟩ := kv
    have hn2 : k2 ∉ dictKeys rest ∧ (dictKeys rest).Nodup := by
      simpa [dictKeys_cons] using hn
    rw [dictGet?]
    rcases List.mem_cons.1 hm with hm2 | hm2
    · rw [Prod.mk.injEq] at hm2
      simp [hm2.1, hm2.2]
    · by_cases h : k2 = k
      · exfalso
        subst h
        exact hn2.1 (by simpa [dictKeys] using List.mem_map_of_mem Prod.fst hm2)
      · rw [if_neg h]
        exact ih hn2.2 hm2

theorem mem_of_dictGet?_eq_some {α : Type} {k : String} {v : α} :
    ∀ {d : List (String × α)}, dictGet? k d = some v → (k, v) ∈ d := by
  intro d
  induction d with
  | nil =>
    intro h
    simp [dictGet?] at h
  | cons kv rest ih =>
    intro h
    obtain ⟨k2, v2⟩ := kv
    rw [dictGet?] at h
    by_cases h2 : k2 = k
    · rw [if_pos h2] at h
      injection h with h3
      subst h2
      subst h3
      exact List.mem_cons_self _ _
    · rw [if_neg h2] at h
      exact List.mem_cons.2 (Or.inr (ih h))

theorem mem_dictValues_iff {α : Type} {v : α} {d : List (String × α)}
    (hn : (dictKeys d).Nodup) :
    v ∈ dictValues d ↔ ∃ k, dictGet? k d = some v := by
  constructor
  · intro hm
    obtain ⟨⟨k, v2⟩, hkv, he⟩ := List.mem_map.1 hm
    subst he
    exact ⟨k, dictGet?_eq_some_of_mem hn hkv⟩
  · rintro ⟨k, hk⟩
    exact List.mem_map.2 ⟨(k, v), mem_of_dictGet?_eq_some hk, rfl⟩

/-! ## Characterisation of the merge dict -/

theorem mem_dictInsert {α : Type} {k : String} {v : α} {kv : String × α}
    {d : List (String × α)} (h : kv ∈ dictInsert k v d) : kv = (k, v) ∨ kv ∈ d := by
  induction d with
  | nil => simpa [dictInsert] using h
  | cons kv2 rest ih =>
    obtain ⟨k2, v2⟩ := kv2
    rw [dictInsert] at h
    by_cases h2 : k2 = k
    · rw [if_pos h2] at h
      rcases List.mem_cons.1 h with h3 | h3
      · exact Or.inl h3
      · exact Or.inr (List.mem_cons.2 (Or.inr h3))
    · rw [if_neg h2] at h
      rcases List.mem_cons.1 h with h3 | h3
      · exact Or.inr (List.mem_cons.2 (Or.inl h3))
      · rcases ih h3 with h4 | h4
        · exact Or.inl h4
        · exact Or.inr (List.mem_cons.2 (Or.inr h4))

/-- The key under which a record is stored is always its own id. -/
theorem mergeDict_key_eq_id {α : Type} (idOf : α → String) (dateOf : α → String)
    (parse : String → Option ℤ) (twa : ℤ) :
    ∀ (existing new : List α) (kv : String × α),
      kv ∈ (new.foldl (fun d r => if idOf r = "" then d else dictInsert (idOf r) r d)
        (existing.foldl (fun d r =>
          if idOf r = "" then d
          else if mergeKeepB dateOf parse twa r then dictInsert (idOf r) r d
          else d) [])) → kv.1 = idOf kv.2 := by
  have step : ∀ (l : List α) (f : List (String × α) → α → List (String × α))
      (hf : ∀ d r kv, kv ∈ f d r → kv = (idOf r, r) ∨ kv ∈ d)
      (d : List (String × α)) (hd : ∀ kv ∈ d, kv.1 = idOf kv.2)
      (kv : String × α), kv ∈ l.foldl f d → kv.1 = idOf kv.2 := by
    intro l
    induction l with
    | nil =>
      intro f hf d hd kv h
      exact hd kv h
    | cons r rest ih =>
      intro f hf d hd kv h
      refine ih f hf (f d r) ?_ kv h
      intro kv2 h2
      rcases hf d r kv2 h2 with h3 | h3
      · rw [h3]
      · exact hd kv2 h3
  intro existing new kv h
  refine step new _ ?_ _ ?_ kv h
  · intro d r kv2 h2
    by_cases h3 : idOf r = ""
    · simp only [if_pos h3] at h2
      exact Or.inr h2
    · simp only [if_neg h3] at h2
      rcases mem_dictInsert h2 with h4 | h4
      · exact Or.inl h4
      · exact Or.inr h4
  · intro kv2 h2
    refine step existing _ ?_ [] ?_ kv2 h2
    · intro d r kv3 h3
      by_cases h4 : idOf r = ""
      · simp only [if_pos h4] at h3
        exact Or.inr h3
      · simp only [if_neg h4] at h3
        by_cases h5 : mergeKeepB dateOf parse twa r = true
        · simp only [if_pos h5] at h3
          rcases mem_dictInsert h3 with h6 | h6
          · exact Or.inl h6
          · exact Or.inr h6
        · simp only [if_neg h5] at h3
          exact Or.inr h3
    · intro kv3 h3
      simp at h3

theorem find?_id_eq_some_self {α : Type} (idOf : α → String) :
    ∀ {l : List α} {r : α}, (l.map idOf).Nodup → r ∈ l →
      l.find? (fun x => idOf x == idOf r) = some r := by
  intro l
  induction l with
  | nil =>
    intro r _ hm
    simp at hm
  | cons x rest ih =>
    intro r hnd hm
    rcases List.mem_cons.1 hm with hm2 | hm2
    · subst hm2
      simp [List.find?_cons_of_pos]
    · have hne : idOf x ≠ idOf r := by
        intro hc
        have : idOf r ∈ rest.map idOf := List.mem_map_of_mem idOf hm2
        rw [← hc] at this
        exact (List.nodup_cons.1 (by simpa using hnd)).1 this
      rw [List.find?_cons_of_neg _ (by simpa using hne)]
      exact ih (List.nodup_cons.1 (by simpa using hnd)).2 hm2

theorem foldNew_get {α : Type} (idOf : α → String) :
    ∀ (new : List α) (d : List (String × α)) (k : String),
      (∀ x ∈ new, idOf x ≠ "") → (new.map idOf).Nodup →
      dictGet? k (new.foldl (fun d r => if idOf r = "" then d else dictInsert (idOf r) r d) d) =
        (match new.find? (fun r => idOf r == k) with
          | some r => some r
          | none => dictGet? k d) := by
  intro new
  induction new with
  | nil =>
    intro d k _ _
    simp
  | cons r rest ih =>
    intro d k hne hnd
    have hr : idOf r ≠ "" := hne r (List.mem_cons_self _ _)
    have hstep : (r :: rest).foldl
        (fun d x => if idOf x = "" then d else dictInsert (idOf x) x d) d =
        rest.foldl (fun d x => if idOf x = "" then d else dictInsert (idOf x) x d)
          (dictInsert (idOf r) r d) := by
      rw [List.foldl_cons, if_neg hr]
    rw [hstep, ih _ k (fun x hx => hne x (List.mem_cons_of_mem _ hx))
      (List.nodup_cons.1 (by simpa using hnd)).2]
    by_cases hk : idOf r = k
    · subst hk
      have hrest : rest.find? (fun x => idOf x == idOf r) = none := by
        rw [List.find?_eq_none]
        intro x hx
        simp only [beq_iff_eq]
        intro hc
        have : idOf r ∈ rest.map idOf := hc ▸ List.mem_map_of_mem idOf hx
        exact (List.nodup_cons.1 (by simpa using hnd)).1 this
      rw [List.find?_cons_of_pos _ (by simp), hrest, dictGet?_insert_self]
    · rw [List.find?_cons_of_neg _ (by simpa using hk)]
      cases hfind : rest.find? (fun x => idOf x == k) with
      | some x => rfl
      | none => rw [dictGet?_insert_ne _ _ (fun hc => hk hc.symm)]

theorem foldExisting_get {α : Type} (idOf dateOf : α → String)
    (parse : String → Option ℤ) (twa : ℤ) :
    ∀ (existing : List α) (d : List (String × α)) (k : String),
      (∀ x ∈ existing, idOf x ≠ "") → (existing.map idOf).Nodup →
      dictGet? k (existing.foldl (fun d r =>
          if idOf r = "" then d
          else if mergeKeepB dateOf parse twa r then dictInsert (idOf r) r d
          else d) d) =
        (match existing.find? (fun r => idOf r == k) with
          | some r => if mergeKeepB dateOf parse twa r then some r else dictGet? k d
          | none => dictGet? k d) := by
  intro existing
  induction existing with
  | nil =>
    intro d k _ _
    simp
  | cons r rest ih =>
    intro d k hne hnd
    have hr : idOf r ≠ "" := hne r (List.mem_cons_self _ _)
    have hrec := ih
      (if mergeKeepB dateOf parse twa r then dictInsert (idOf r) r d else d) k
      (fun x hx => hne x (List.mem_cons_of_mem _ hx))
      (List.nodup_cons.1 (by simpa using hnd)).2
    have hstep : (r :: rest).foldl (fun d x =>
        if idOf x = "" then d
        else if mergeKeepB dateOf parse twa x then dictInsert (idOf x) x d
        else d) d =
        rest.foldl (fun d x =>
          if idOf x = "" then d
          else if mergeKeepB dateOf parse twa x then dictInsert (idOf x) x d
          else d)
          (if mergeKeepB dateOf parse twa r then dictInsert (idOf r) r d else d) := by
      rw [List.foldl_cons, if_neg hr]
    rw [hstep, hrec]
    by_cases hk : idOf r = k
    · subst hk
      have hrest : rest.find? (fun x => idOf x == idOf r) = none := by
        rw [List.find?_eq_none]
        intro x hx
        simp only [beq_iff_eq]
        intro hc
        have : idOf r ∈ rest.map idOf := hc ▸ List.mem_map_of_mem idOf hx
        exact (List.nodup_cons.1 (by simpa using hnd)).1 this
      rw [List.find?_cons_of_pos _ (by simp), hrest]
      show dictGet? (idOf r)
          (if mergeKeepB dateOf parse twa r = true then dictInsert (idOf r) r d else d) =
        if mergeKeepB dateOf parse twa r = true then some r else dictGet? (idOf r) d
      by_cases hkeep : mergeKeepB dateOf parse twa r = true
      · rw [if_pos hkeep, if_pos hkeep, dictGet?_insert_self]
      · rw [if_neg hkeep, if_neg hkeep]
    · rw [List.find?_cons_of_neg _ (by simpa using hk)]
      cases hfind : rest.find? (fun x => idOf x == k) with
      | some x =>
        show (if mergeKeepB dateOf parse twa x = true then some x
            else dictGet? k
              (if mergeKeepB dateOf parse twa r = true then dictInsert (idOf r) r d else d)) =
          if mergeKeepB dateOf parse twa x = true then some x else dictGet? k d
        by_cases hkx : mergeKeepB dateOf parse twa x = true
        · rw [if_pos hkx, if_pos hkx]
        · rw [if_neg hkx, if_neg hkx]
          by_cases hkeep : mergeKeepB dateOf parse twa r = true
          · rw [if_pos hkeep, dictGet?_insert_ne _ _ (fun hc => hk hc.symm)]
          · rw [if_neg hkeep]
      | none =>
        show dictGet? k
            (if mergeKeepB dateOf parse twa r = true then dictInsert (idOf r) r d else d) =
          dictGet? k d
        by_cases hkeep : mergeKeepB dateOf parse twa r = true
        · rw [if_pos hkeep, dictGet?_insert_ne _ _ (fun hc => hk hc.symm)]
        · rw [if_neg hkeep]

theorem foldNew_keys_nodup {α : Type} (idOf : α → String) :
    ∀ (new : List α) (d : List (String × α)), (dictKeys d).Nodup →
      (dictKeys (new.foldl
        (fun d r => if idOf r = "" then d else dictInsert (idOf r) r d) d)).Nodup := by
  intro new
  induction new with
  | nil =>
    intro d hd
    exact hd
  | cons r rest ih =>
    intro d hd
    rw [List.foldl_cons]
    by_cases hr : idOf r = ""
    · rw [if_pos hr]
      exact ih d hd
    · rw [if_neg hr]
      exact ih _ (dictKeys_nodup_insert _ _ _ hd)

theorem foldExisting_keys_nodup {α : Type} (idOf dateOf : α → String)
    (parse : String → Option ℤ) (twa : ℤ) :
    ∀ (existing : List α) (d : List (String × α)), (dictKeys d).Nodup →
      (dictKeys (existing.foldl (fun d r =>
        if idOf r = "" then d
        else if mergeKeepB dateOf parse twa r then dictInsert (idOf r) r d
        else d) d)).Nodup := by
  intro existing
  induction existing with
  | nil =>
    intro d hd
    exact hd
  | cons r rest ih =>
    intro d hd
    rw [List.foldl_cons]
    by_cases hr : idOf r = ""
    · rw [if_pos hr]
      exact ih d hd
    · rw [if_neg hr]
      by_cases hkeep : mergeKeepB dateOf parse twa r = true
      · rw [if_pos hkeep]
        exact ih _ (dictKeys_nodup_insert _ _ _ hd)
      · rw [if_neg hkeep]
        exact ih d hd

/--
The content of the merged dict: a record is in the merge exactly when it is
freshly fetched, or it is persisted, kept by the date rule, and not overwritten
by a fresh record with the same id.
-/
theorem mergeKeyed_mem_iff {α : Type} (idOf dateOf : α → String)
    (parse : String → Option ℤ) (twa : ℤ) (existing new : List α) (r : α)
    (hneE : ∀ x ∈ existing, idOf x ≠ "") (hndE : (existing.map idOf).Nodup)
    (hneN : ∀ x ∈ new, idOf x ≠ "") (hndN : (new.map idOf).Nodup) :
    r ∈ mergeKeyed idOf dateOf parse twa existing new ↔
      r ∈ new ∨ (r ∈ existing ∧ mergeKeepB dateOf parse twa r = true ∧
        idOf r ∉ new.map idOf) := by
  have hk1 : (dictKeys (existing.foldl (fun d x =>
      if idOf x = "" then d
      else if mergeKeepB dateOf parse twa x then dictInsert (idOf x) x d
      else d) [])).Nodup := by
    refine foldExisting_keys_nodup idOf dateOf parse twa existing [] ?_
    simp [dictKeys]
  have hk2 : (dictKeys (new.foldl
      (fun d x => if idOf x = "" then d else dictInsert (idOf x) x d)
      (existing.foldl (fun d x =>
        if idOf x = "" then d
        else if mergeKeepB dateOf parse twa x then dictInsert (idOf x) x d
        else d) []))).Nodup :=
    foldNew_keys_nodup idOf new _ hk1
  have hunfold : mergeKeyed idOf dateOf parse twa existing new =
      sortByKeyDesc dateOf (dictValues (new.foldl
        (fun d x => if idOf x = "" then d else dictInsert (idOf x) x d)
        (existing.foldl (fun d x =>
          if idOf x = "" then d
          else if mergeKeepB dateOf parse twa x then dictInsert (idOf x) x d
          else d) []))) := rfl
  rw [hunfold, mem_sortByKeyDesc, mem_dictValues_iff hk2]
  constructor
  · rintro ⟨k, hget⟩
    have hkr : k = idOf r :=
      mergeDict_key_eq_id idOf dateOf parse twa existing new (k, r)
        (mem_of_dictGet?_eq_some hget)
    subst hkr
    rw [foldNew_get idOf new _ (idOf r) hneN hndN] at hget
    cases hfind : new.find? (fun x => idOf x == idOf r) with
    | some x =>
      rw [hfind] at hget
      have hget2 : some x = some r := hget
      injection hget2 with hxr
      subst hxr
      exact Or.inl (List.mem_of_find?_eq_some hfind)
    | none =>
      rw [hfind] at hget
      have hget2 : dictGet? (idOf r) (existing.foldl (fun d x =>
          if idOf x = "" then d
          else if mergeKeepB dateOf parse twa x then dictInsert (idOf x) x d
          else d) []) = some r := hget
      rw [foldExisting_get idOf dateOf parse twa existing [] (idOf r) hneE hndE] at hget2
      have hnotin : idOf r ∉ new.map idOf := by
        intro hc
        obtain ⟨x, hx, hxe⟩ := List.mem_map.1 hc
        have := List.find?_eq_none.1 hfind x hx
        simp [hxe] at this
      cases hfindE : existing.find? (fun x => idOf x == idOf r) with
      | some y =>
        rw [hfindE] at hget2
        have hget3 : (if mergeKeepB dateOf parse twa y = true then some y
            else dictGet? (idOf r) ([] : List (String × α))) = some r := hget2
        by_cases hky : mergeKeepB dateOf parse twa y = true
        · rw [if_pos hky] at hget3
          injection hget3 with hyr
          subst hyr
          exact Or.inr ⟨List.mem_of_find?_eq_some hfindE, hky, hnotin⟩
        · rw [if_neg hky] at hget3
          have hget4 : (none : Option α) = some r := hget3
          exact absurd hget4 (by simp)
      | none =>
        rw [hfindE] at hget2
        have hget3 : (none : Option α) = some r := hget2
        exact absurd hget3 (by simp)
  · rintro (hnew | ⟨hex, hkeep, hnotin⟩)
    · refine ⟨idOf r, ?_⟩
      rw [foldNew_get idOf new _ (idOf r) hneN hndN,
        find?_id_eq_some_self idOf hndN hnew]
    · refine ⟨idOf r, ?_⟩
      rw [foldNew_get idOf new _ (idOf r) hneN hndN]
      have hfind : new.find? (fun x => idOf x == idOf r) = none := by
        rw [List.find?_eq_none]
        intro x hx
        simp only [beq_iff_eq]
        intro hc
        exact hnotin (hc ▸ List.mem_map_of_mem idOf hx)
      rw [hfind]
      show dictGet? (idOf r) (existing.foldl (fun d x =>
          if idOf x = "" then d
          else if mergeKeepB dateOf parse twa x then dictInsert (idOf x) x d
          else d) []) = some r
      rw [foldExisting_get idOf dateOf parse twa existing [] (idOf r) hneE hndE,
        find?_id_eq_some_self idOf hndE hex]
      show (if mergeKeepB dateOf parse twa r = true then some r
          else dictGet? (idOf r) ([] : List (String × α))) = some r
      rw [if_pos hkeep]

/-- The ids of the merged list are pairwise distinct. -/
theorem mergeKeyed_ids_nodup {α : Type} (idOf dateOf : α → String)
    (parse : String → Option ℤ) (twa : ℤ) (existing new : List α) :
    ((mergeKeyed idOf dateOf parse twa existing new).map idOf).Nodup := by
  have hk1 : (dictKeys (existing.foldl (fun d x =>
      if idOf x = "" then d
      else if mergeKeepB dateOf parse twa x then dictInsert (idOf x) x d
      else d) [])).Nodup := by
    refine foldExisting_keys_nodup idOf dateOf parse twa existing [] ?_
    simp [dictKeys]
  have hk2 : (dictKeys (new.foldl
      (fun d x => if idOf x = "" then d else dictInsert (idOf x) x d)
      (existing.foldl (fun d x =>
        if idOf x = "" then d
        else if mergeKeepB dateOf parse twa x then dictInsert (idOf x) x d
        else d) []))).Nodup :=
    foldNew_keys_nodup idOf new _ hk1
  have hmapeq : (dictValues (new.foldl
      (fun d x => if idOf x = "" then d else dictInsert (idOf x) x d)
      (existing.foldl (fun d x =>
        if idOf x = "" then d
        else if mergeKeepB dateOf parse twa x then dictInsert (idOf x) x d
        else d) []))).map idOf =
      dictKeys (new.foldl
        (fun d x => if idOf x = "" then d else dictInsert (idOf x) x d)
        (existing.foldl (fun d x =>
          if idOf x = "" then d
          else if mergeKeepB dateOf parse twa x then dictInsert (idOf x) x d
          else d) [])) := by
    rw [dictValues, dictKeys, List.map_map]
    refine List.map_congr_left ?_
    intro kv hkv
    exact (mergeDict_key_eq_id idOf dateOf parse twa existing new kv hkv).symm
  have hperm : ((mergeKeyed idOf dateOf parse twa existing new).map idOf).Perm
      ((dictValues (new.foldl
        (fun d x => if idOf x = "" then d else dictInsert (idOf x) x d)
        (existing.foldl (fun d x =>
          if idOf x = "" then d
          else if mergeKeepB dateOf parse twa x then dictInsert (idOf x) x d
          else d) []))).map idOf) :=
    (sortByKeyDesc_perm dateOf _).map idOf
  rw [hmapeq] at hperm
  exact hperm.nodup_iff.2 hk2

/-- The keep-condition in claim language: the date does not parse, or parses
strictly older than the boundary. -/
theorem mergeKeepB_iff {α : Type} (dateOf : α → String) (parse : String → Option ℤ)
    (twa : ℤ) (r : α) :
    mergeKeepB dateOf parse twa r = true ↔
      (parse (splitTPart (dateOf r)) = none ∨
        ∃ d, parse (splitTPart (dateOf r)) = some d ∧ d < twa) := by
  rw [mergeKeepB]
  cases hp : parse (splitTPart (dateOf r)) with
  | none => simp
  | some d => simp [hp]

/--
C1: For every incremental-sync merge (applied separately to activities and to
events), the merged result contains exactly: each previously persisted record
whose date parses and is strictly older than now minus 14 days, each previously
persisted record whose date cannot be parsed (kept defensively), and every
freshly fetched record, keyed by record id with fresh records overwriting any
id collision; consequently, any previously persisted record dated within the
14-day window whose id is absent from the fresh fetch is absent from the merged
result.  (`two_weeks_ago` is the timestamp `now − 14 days`; records are assumed
to carry pairwise-distinct non-empty ids, which is what "keyed by record id"
presupposes.)
-/
theorem C1_merge_rule
    (parse : String → Option ℤ) (two_weeks_ago : ℤ)
    (existingA newA : List Activity) (existingE newE : List Event)
    (hneA : ∀ a ∈ existingA, a.id ≠ "") (hndA : (existingA.map Activity.id).Nodup)
    (hneNA : ∀ a ∈ newA, a.id ≠ "") (hndNA : (newA.map Activity.id).Nodup)
    (hneE : ∀ e ∈ existingE, e.id ≠ "") (hndE : (existingE.map Event.id).Nodup)
    (hneNE : ∀ e ∈ newE, e.id ≠ "") (hndNE : (newE.map Event.id).Nodup) :
    (∀ a : Activity, a ∈ merge_activities parse two_weeks_ago existingA newA ↔
      a ∈ newA ∨ (a ∈ existingA ∧
        (parse (splitTPart a.date) = none ∨
          ∃ d, parse (splitTPart a.date) = some d ∧ d < two_weeks_ago) ∧
        a.id ∉ newA.map Activity.id)) ∧
    (∀ e : Event, e ∈ merge_events parse two_weeks_ago existingE newE ↔
      e ∈ newE ∨ (e ∈ existingE ∧
        (parse (splitTPart e.start_date_local) = none ∨
          ∃ d, parse (splitTPart e.start_date_local) = some d ∧ d < two_weeks_ago) ∧
        e.id ∉ newE.map Event.id)) ∧
    (∀ a ∈ existingA, ∀ d : ℤ, parse (splitTPart a.date) = some d →
      two_weeks_ago ≤ d → a.id ∉ newA.map Activity.id →
      a ∉ merge_activities parse two_weeks_ago existingA newA) ∧
    (∀ e ∈ existingE, ∀ d : ℤ, parse (splitTPart e.start_date_local) = some d →
      two_weeks_ago ≤ d → e.id ∉ newE.map Event.id →
      e ∉ merge_events parse two_weeks_ago existingE newE) := by
  have hA : ∀ a : Activity, a ∈ merge_activities parse two_weeks_ago existingA newA ↔
      a ∈ newA ∨ (a ∈ existingA ∧
        (parse (splitTPart a.date) = none ∨
          ∃ d, parse (splitTPart a.date) = some d ∧ d < two_weeks_ago) ∧
        a.id ∉ newA.map Activity.id) := by
    intro a
    rw [merge_activities,
      mergeKeyed_mem_iff Activity.id Activity.date parse two_weeks_ago existingA newA a
        hneA hndA hneNA hndNA,
      mergeKeepB_iff Activity.date parse two_weeks_ago a]
  have hE : ∀ e : Event, e ∈ merge_events parse two_weeks_ago existingE newE ↔
      e ∈ newE ∨ (e ∈ existingE ∧
        (parse (splitTPart e.start_date_local) = none ∨
          ∃ d, parse (splitTPart e.start_date_local) = some d ∧ d < two_weeks_ago) ∧
        e.id ∉ newE.map Event.id) := by
    intro e
    rw [merge_events,
      mergeKeyed_mem_iff Event.id Event.start_date_local parse two_weeks_ago
        existingE newE e hneE hndE hneNE hndNE,
      mergeKeepB_iff Event.start_date_local parse two_weeks_ago e]
  refine ⟨hA, hE, ?_, ?_⟩
  · intro a hmem d hparse hge hnotin hin
    rcases (hA a).1 hin with hnew | ⟨_, hkeep, _⟩
    · exact hnotin (List.mem_map_of_mem Activity.id hnew)
    · rcases hkeep with hnone | ⟨d2, hd2, hlt⟩
      · rw [hparse] at hnone
        exact Option.noConfusion hnone
      · rw [hparse] at hd2
        injection hd2 with hdd
        subst hdd
        omega
  · intro e hmem d hparse hge hnotin hin
    rcases (hE e).1 hin with hnew | ⟨_, hkeep, _⟩
    · exact hnotin (List.mem_map_of_mem Event.id hnew)
    · rcases hkeep with hnone | ⟨d2, hd2, hlt⟩
      · rw [hparse] at hnone
        exact Option.noConfusion hnone
      · rw [hparse] at hd2
        injection hd2 with hdd
        subst hdd
        omega

/--
Witness for C1: with a kept old record, a stale record inside the 14-day window
whose id the fresh fetch does not return, and one fresh record, the stale
record is deleted from the merge while the other two survive.
-/
theorem C1_merge_rule_witness :
    ((∀ a ∈ [wOld, wMid], a.id ≠ "") ∧ (∀ a ∈ [wNew], a.id ≠ "") ∧
      wOld ∈ merge_activities wparse 5 [wOld, wMid] [wNew] ∧
      wNew ∈ merge_activities wparse 5 [wOld, wMid] [wNew]) ∧
    wMid ∉ merge_activities wparse 5 [wOld, wMid] [wNew] :=
  ⟨by decide,
    (C1_merge_rule wparse 5 [wOld, wMid] [wNew] [] []
        (by decide) (by decide) (by decide) (by decide)
        (by decide) (by decide) (by decide) (by decide)).2.2.1
      wMid (by decide) 8 (by decide) (by decide) (by decide)⟩

/-! ## Numeral bridges -/

theorem qof_zero : qof 0 = (0 : ℚ) := by
  rw [qof_eq]
  norm_num

theorem mkRat_half : mkRat 1 2 = (1/2 : ℚ) := by
  rw [Rat.mkRat_eq_div]
  norm_num

theorem mkRat_1_10 : mkRat 1 10 = (1/10 : ℚ) := by
  rw [Rat.mkRat_eq_div]
  norm_num

theorem mkRat_7_10 : mkRat 7 10 = (7/10 : ℚ) := by
  rw [Rat.mkRat_eq_div]
  norm_num

theorem mkRat_17_20 : mkRat 17 20 = (17/20 : ℚ) := by
  rw [Rat.mkRat_eq_div]
  norm_num

theorem mkRat_19_20 : mkRat 19 20 = (19/20 : ℚ) := by
  rw [Rat.mkRat_eq_div]
  norm_num

/-- The code's confidence equals the amended claim's scoring, for every input. -/
theorem calc_eq_amended (a : Activity) (e : Event) (t : ℚ) :
    calculate_match_confidence a e t = amended_match_confidence a e t := by
  rw [calculate_match_confidence, amended_match_confidence]
  by_cases htm : type_matches a e = true
  · simp only [htm, Bool.not_true, Bool.false_eq_true, if_false]
    cases ha : a.training_stress_score with
    | none =>
      show (mkRat 7 10 : ℚ) = (7/10 : ℚ)
      exact mkRat_7_10
    | some av =>
      cases he : e.icu_training_load with
      | none =>
        show (mkRat 7 10 : ℚ) = (7/10 : ℚ)
        exact mkRat_7_10
      | some pv =>
        show (if (!(av == qof 0) && !(pv == qof 0) && qltB (qof 0) pv) = true then
            (if qleB (qdiv (qabs (qsub av pv)) pv) (mkRat 1 10) = true then mkRat 19 20
              else if qleB (qdiv (qabs (qsub av pv)) pv) t = true then mkRat 17 20
              else mkRat 7 10)
          else mkRat 7 10) =
          (if av ≠ 0 ∧ pv ≠ 0 ∧ 0 < pv then
            (if |av - pv| / pv ≤ 1/10 then 19/20
              else if |av - pv| / pv ≤ t then 17/20
              else 7/10)
          else 7/10)
        have hguard : (!(av == qof 0) && !(pv == qof 0) && qltB (qof 0) pv) = true ↔
            (av ≠ 0 ∧ pv ≠ 0 ∧ 0 < pv) := by
          rw [qof_zero, qltB_eq_decide]
          simp [and_assoc]
        by_cases hg : av ≠ 0 ∧ pv ≠ 0 ∧ 0 < pv
        · rw [if_pos (hguard.2 hg), if_pos hg]
          rw [qsub_eq, qabs_eq, qdiv_eq, qleB_eq_decide, qleB_eq_decide,
            mkRat_1_10, mkRat_19_20, mkRat_17_20, mkRat_7_10]
          by_cases h1 : |av - pv| / pv ≤ 1/10
          · simp [h1]
          · rw [if_neg (by simpa using h1), if_neg h1]
            by_cases h2 : |av - pv| / pv ≤ t
            · simp [h2]
            · simp [h2]
        · rw [if_neg (fun hc => hg (hguard.1 hc)), if_neg hg]
          exact mkRat_7_10
  · simp only [Bool.not_eq_true] at htm
    simp [htm, mkRat_half]

/-! ## Generic fold invariants and the fuzzy-match step -/

theorem foldl_inv {σ α : Type} (f : σ → α → σ) (P : σ → Prop)
    (hstep : ∀ st x, P st → P (f st x)) :
    ∀ (l : List α) (st : σ), P st → P (l.foldl f st) := by
  intro l
  induction l with
  | nil =>
    intro st h
    exact h
  | cons x rest ih =>
    intro st h
    rw [List.foldl_cons]
    exact ih (f st x) (hstep st x h)

theorem bc_step_eq (a : Activity) (t : ℚ) (ids : List String)
    (st : Option Event × ℚ) (e : Event) :
    bc_step a t ids st e =
      (if e.id ∈ ids then st
        else if qltB st.2 (calculate_match_confidence a e t) then
          (some e, calculate_match_confidence a e t)
        else st) := rfl

theorem bc_fold_mono (a : Activity) (t : ℚ) (ids : List String) :
    ∀ (cands : List Event) (st : Option Event × ℚ),
      st.2 ≤ (cands.foldl (bc_step a t ids) st).2 := by
  intro cands
  induction cands with
  | nil =>
    intro st
    exact le_refl _
  | cons e rest ih =>
    intro st
    rw [List.foldl_cons, bc_step_eq]
    by_cases hmem : e.id ∈ ids
    · rw [if_pos hmem]
      exact ih st
    · rw [if_neg hmem]
      by_cases hup : qltB st.2 (calculate_match_confidence a e t) = true
      · rw [if_pos hup]
        refine le_trans (le_of_lt ((qltB_iff _ _).1 hup)) ?_
        exact ih (some e, calculate_match_confidence a e t)
      · rw [if_neg hup]
        exact ih st

theorem bc_fold_cases (a : Activity) (t : ℚ) (ids : List String) :
    ∀ (cands : List Event) (st : Option Event × ℚ),
      (cands.foldl (bc_step a t ids) st = st ∧
        ∀ e2 ∈ cands, e2.id ∉ ids → calculate_match_confidence a e2 t ≤ st.2) ∨
      (∃ e, e ∈ cands ∧ e.id ∉ ids ∧
        (cands.foldl (bc_step a t ids) st).1 = some e ∧
        (cands.foldl (bc_step a t ids) st).2 = calculate_match_confidence a e t ∧
        ∀ e2 ∈ cands, e2.id ∉ ids → calculate_match_confidence a e2 t ≤
          (cands.foldl (bc_step a t ids) st).2) := by
  intro cands
  induction cands with
  | nil =>
    intro st
    left
    constructor
    · rfl
    · intro e2 h2
      simp at h2
  | cons e rest ih =>
    intro st
    rw [List.foldl_cons, bc_step_eq]
    by_cases hmem : e.id ∈ ids
    · rw [if_pos hmem]
      rcases ih st with ⟨heq, hb⟩ | ⟨e0, he0, helig, h1, h2, hb⟩
      · left
        refine ⟨heq, ?_⟩
        intro e2 h2 h3
        rcases List.mem_cons.1 h2 with h4 | h4
        · exact absurd (h4 ▸ hmem) h3
        · exact hb e2 h4 h3
      · right
        refine ⟨e0, List.mem_cons_of_mem _ he0, helig, h1, h2, ?_⟩
        intro e2 h3 h4
        rcases List.mem_cons.1 h3 with h5 | h5
        · exact absurd (h5 ▸ hmem) h4
        · exact hb e2 h5 h4
    · rw [if_neg hmem]
      by_cases hup : qltB st.2 (calculate_match_confidence a e t) = true
      · rw [if_pos hup]
        rcases ih (some e, calculate_match_confidence a e t) with
          ⟨heq, hb⟩ | ⟨e0, he0, helig, h1, h2, hb⟩
        · right
          refine ⟨e, List.mem_cons_self _ _, hmem, ?_, ?_, ?_⟩
          · rw [heq]
          · rw [heq]
          · intro e2 h3 h4
            rw [heq]
            rcases List.mem_cons.1 h3 with h5 | h5
            · rw [h5]
            · exact hb e2 h5 h4
        · right
          refine ⟨e0, List.mem_cons_of_mem _ he0, helig, h1, h2, ?_⟩
          intro e2 h3 h4
          rcases List.mem_cons.1 h3 with h5 | h5
          · refine le_trans ?_ (bc_fold_mono a t ids rest
              (some e, calculate_match_confidence a e t))
            rw [h5]
          · exact hb e2 h5 h4
      · rw [if_neg hup]
        have hle : calculate_match_confidence a e t ≤ st.2 :=
          le_of_not_lt (fun hc => hup ((qltB_iff _ _).2 hc))
        rcases ih st with ⟨heq, hb⟩ | ⟨e0, he0, helig, h1, h2, hb⟩
        · left
          refine ⟨heq, ?_⟩
          intro e2 h3 h4
          rcases List.mem_cons.1 h3 with h5 | h5
          · rw [h5]
            exact hle
          · exact hb e2 h5 h4
        · right
          refine ⟨e0, List.mem_cons_of_mem _ he0, helig, h1, h2, ?_⟩
          intro e2 h3 h4
          rcases List.mem_cons.1 h3 with h5 | h5
          · refine le_trans ?_ (bc_fold_mono a t ids rest st)
            rw [h5]
            exact hle
          · exact hb e2 h5 h4

/-- Every confidence the scorer can produce is at least 0.50. -/
theorem conf_ge_half (a : Activity) (e : Event) (t : ℚ) :
    1/2 ≤ calculate_match_confidence a e t := by
  rw [calc_eq_amended, amended_match_confidence]
  split
  · norm_num
  · split
    · split
      · split
        · norm_num
        · split
          · norm_num
          · norm_num
      · norm_num
    · norm_num

/-- Each fuzzy-match iteration either leaves the state unchanged or appends one
decorated activity, one decorated event and the consumed event id. -/
theorem fz_step_cases (ebd : List (String × List Event)) (t : ℚ)
    (st : List Activity × List Event × List String) (a : Activity) :
    fz_step ebd t st a = st ∨
    ∃ bm d cands,
      extract_date a.date = some d ∧
      dictGet? d ebd = some cands ∧
      bm ∈ cands ∧ bm.id ∉ st.2.2 ∧
      (best_candidate a t st.2.2 cands).1 = some bm ∧
      (best_candidate a t st.2.2 cands).2 = calculate_match_confidence a bm t ∧
      qleB (mkRat 1 2) (best_candidate a t st.2.2 cands).2 = true ∧
      fz_step ebd t st a =
        (st.1 ++ [{ a with planned_event_id := some bm.id, planned_match_confidence := some (best_candidate a t st.2.2 cands).2 }],
          st.2.1 ++ [{ bm with completed := true, completed_activity_id := a.id, completion_date := a.date }],
          st.2.2 ++ [bm.id]) := by
  cases hd : extract_date a.date with
  | none =>
    left
    simp [fz_step, hd]
  | some d =>
    cases hg : dictGet? d ebd with
    | none =>
      left
      simp [fz_step, hd, hg]
    | some cands =>
      cases hb1 : (best_candidate a t st.2.2 cands).1 with
      | none =>
        left
        simp [fz_step, hd, hg, hb1]
      | some bm =>
        have hcases := bc_fold_cases a t st.2.2 cands (none, qof 0)
        have hbc : cands.foldl (bc_step a t st.2.2) (none, qof 0) =
            best_candidate a t st.2.2 cands := rfl
        rw [hbc] at hcases
        rcases hcases with ⟨heq, _⟩ | ⟨e0, he0, helig, h1, h2, _⟩
        · rw [heq] at hb1
          exact absurd hb1 (by simp)
        · have hbm : e0 = bm := by
            rw [h1] at hb1
            injection hb1
          subst hbm
          by_cases hacc : qleB (mkRat 1 2) (best_candidate a t st.2.2 cands).2 = true
          · right
            refine ⟨e0, d, cands, rfl, hg, he0, helig, h1, h2, hacc, ?_⟩
            simp [fz_step, hd, hg, hb1, hacc]
          · left
            simp [fz_step, hd, hg, hb1, hacc]

/--
Counterexample to C2 as stated: with an actual TSS that is present but zero
(`known`), a positive planned TSS of 10, matching types and a configured
threshold of 1.0 (i.e. 100% variance allowed), the claim's scoring rule gives
0.85 (variance 1.0 ≤ threshold) while the code returns 0.70 — Python's
truthiness test `if activity_tss and ...` treats the known value 0.0 as
unknown.
-/
theorem C2_counterexample :
    claimed_match_confidence cxA0 cxE10 cxThreshold = 17/20 ∧
    calculate_match_confidence cxA0 cxE10 cxThreshold = 7/10 ∧
    ((17/20 : ℚ) ≠ 7/10) ∧
    cxA0.training_stress_score = some 0 ∧
    cxE10.icu_training_load = some 10 ∧
    type_matches cxA0 cxE10 = true := by
  refine ⟨?_, ?_, by norm_num, ?_, ?_, by decide⟩
  · have htm : type_matches cxA0 cxE10 = true := by decide
    rw [claimed_match_confidence]
    simp only [htm, Bool.not_true, Bool.false_eq_true, if_false]
    show (if (0:ℚ) < qof 10 then
        if |qof 0 - qof 10| / qof 10 ≤ 1/10 then (19/20 : ℚ)
        else if |qof 0 - qof 10| / qof 10 ≤ cxThreshold then 17/20 else 7/10
      else 7/10) = 17/20
    rw [cxThreshold]
    simp only [qof_eq]
    norm_num
  · have h : calculate_match_confidence cxA0 cxE10 cxThreshold = mkRat 7 10 := by decide
    rw [h, mkRat_7_10]
  · show some (qof 0) = some 0
    rw [qof_zero]
  · show some (qof 10) = some 10
    rw [qof_eq]
    norm_num

/--
C2 (amended): the fuzzy-match confidence equals exactly the claim's banding —
0.50 for the date match alone, 0.70 on a type match ("Ride"/"VirtualRide"
equivalent, case-insensitive), and, when the type matches, both TSS values are
known **and non-zero** and the planned TSS is positive, 0.95 / 0.85 / 0.70 by
relative variance (the amendment: Python truthiness treats a known-but-zero
actual TSS as unknown, which the original claim's "known" does not capture);
for each activity the highest-scoring same-date candidate not already
fuzzy-matched is chosen (first strict maximum), a match is accepted only with
confidence ≥ 0.50, and in the example scenario the matcher selects `E2` at
0.95 while `E3` is capped at 0.50 by the type mismatch.
-/
theorem C2_confidence_amended :
    (∀ (a : Activity) (e : Event) (t : ℚ),
      calculate_match_confidence a e t = amended_match_confidence a e t) ∧
    (∀ (a : Activity) (t : ℚ) (ids : List String) (cands : List Event)
        (e : Event) (c : ℚ),
      best_candidate a t ids cands = (some e, c) →
        e ∈ cands ∧ e.id ∉ ids ∧ c = calculate_match_confidence a e t ∧
        (1:ℚ)/2 ≤ c ∧
        ∀ e2 ∈ cands, e2.id ∉ ids → calculate_match_confidence a e2 t ≤ c) ∧
    (∀ (activities : List Activity) (events : List Event) (t : ℚ),
      ∀ x ∈ (fuzzy_match activities events t).1,
        ∃ c, x.planned_match_confidence = some c ∧ (1:ℚ)/2 ≤ c) ∧
    ((fuzzy_match [exA2] [exE2, exE3] (mkRat 1 5)).1 =
        [{ exA2 with planned_event_id := some "e2", planned_match_confidence := some (mkRat 19 20) }] ∧
      calculate_match_confidence exA2 exE2 (mkRat 1 5) = mkRat 19 20 ∧
      calculate_match_confidence exA2 exE3 (mkRat 1 5) = mkRat 1 2) := by
  refine ⟨calc_eq_amended, ?_, ?_, by decide, by decide, by decide⟩
  · intro a t ids cands e c h
    have h1 : (best_candidate a t ids cands).1 = some e := by
      rw [h]
    have h2 : (best_candidate a t ids cands).2 = c := by
      rw [h]
    have hbc : cands.foldl (bc_step a t ids) (none, qof 0) =
        best_candidate a t ids cands := rfl
    rcases bc_fold_cases a t ids cands (none, qof 0) with ⟨heq, _⟩ |
      ⟨e0, he0, helig, hb1, hb2, hb⟩
    · rw [hbc, h] at heq
      have hcontra := congrArg Prod.fst heq
      simp at hcontra
    · rw [hbc] at hb1 hb2 hb
      rw [h1] at hb1
      injection hb1 with hee
      subst hee
      refine ⟨he0, helig, ?_, ?_, ?_⟩
      · rw [← h2, hb2]
      · rw [← h2, hb2]
        exact conf_ge_half a e t
      · intro e2 hm2 hid2
        rw [← h2]
        exact hb e2 hm2 hid2
  · intro activities events t
    have hmain := foldl_inv (fz_step (events_by_date events) t)
      (fun st => ∀ x ∈ st.1, ∃ c, x.planned_match_confidence = some c ∧ (1:ℚ)/2 ≤ c)
      ?_ activities ([], [], []) ?_
    · intro x hx
      exact hmain x hx
    · intro st a hP
      rcases fz_step_cases (events_by_date events) t st a with heq | ⟨bm, d, cands, _, _, _, _, _, hconf, hacc, heq⟩
      · rw [heq]
        exact hP
      · rw [heq]
        intro x hx
        rcases List.mem_append.1 hx with hx2 | hx2
        · exact hP x hx2
        · have hx3 : x = { a with planned_event_id := some bm.id, planned_match_confidence := some (best_candidate a t st.2.2 cands).2 } := by
            simpa using hx2
          refine ⟨(best_candidate a t st.2.2 cands).2, by rw [hx3], ?_⟩
          have := (qleB_iff (mkRat 1 2) (best_candidate a t st.2.2 cands).2).1 hacc
          rw [mkRat_half] at this
          exact this
    · intro x hx
      simp at hx

/--
Witness for C2 (amended): in the example scenario the best-candidate scan
returns `E2` at 0.95, and the theorem's selection clause instantiated there
certifies it is the maximum over the same-date candidates.
-/
theorem C2_confidence_amended_witness :
    best_candidate exA2 (mkRat 1 5) [] [exE2, exE3] = (some exE2, mkRat 19 20) ∧
    (exE2 ∈ [exE2, exE3] ∧ exE2.id ∉ ([] : List String) ∧
      mkRat 19 20 = calculate_match_confidence exA2 exE2 (mkRat 1 5) ∧
      (1:ℚ)/2 ≤ mkRat 19 20 ∧
      ∀ e2 ∈ [exE2, exE3], e2.id ∉ ([] : List String) →
        calculate_match_confidence exA2 e2 (mkRat 1 5) ≤ mkRat 19 20) :=
  ⟨by decide,
    C2_confidence_amended.2.1 exA2 (mkRat 1 5) [] [exE2, exE3] exE2 (mkRat 19 20)
      (by decide)⟩

/--
Counterexample to C8 as stated: activity TSS 200 with same-date, type-matching
candidates planned 181 (absolute distance 19, closer) and planned 220
(absolute distance 20, farther).  The variance is measured *relative to the
planned TSS*: 19/181 ≈ 10.5% lands in the 0.85 band while 20/220 ≈ 9.1% lands
in the 0.95 band, so the closer candidate scores strictly lower.
-/
theorem C8_counterexample :
    (|(200:ℚ) - 181| < |(200:ℚ) - 220|) ∧
    mx200.training_stress_score = some 200 ∧
    eNear.icu_training_load = some 181 ∧
    eFar.icu_training_load = some 220 ∧
    type_matches mx200 eNear = true ∧
    type_matches mx200 eFar = true ∧
    calculate_match_confidence mx200 eNear (mkRat 1 5) <
      calculate_match_confidence mx200 eFar (mkRat 1 5) := by
  have h1 : calculate_match_confidence mx200 eNear (mkRat 1 5) = mkRat 17 20 := by
    decide
  have h2 : calculate_match_confidence mx200 eFar (mkRat 1 5) = mkRat 19 20 := by
    decide
  refine ⟨by norm_num, ?_, ?_, ?_, by decide, by decide, ?_⟩
  · show some (qof 200) = some 200
    rw [qof_eq]
    norm_num
  · show some (qof 181) = some 181
    rw [qof_eq]
    norm_num
  · show some (qof 220) = some 220
    rw [qof_eq]
    norm_num
  · rw [h1, h2, mkRat_17_20, mkRat_19_20]
    norm_num

/--
C8 (amended): for two same-date candidates whose type matches the activity's
and whose planned TSS values are positive, the candidate with the *smaller
relative TSS variance* `|actual − planned| / planned` always receives a
confidence ≥ the other's (the original claim's "closer planned TSS", i.e.
smaller absolute distance, is falsified by `C8_counterexample`).
-/
theorem C8_confidence_monotone_amended
    (a : Activity) (e1 e2 : Event) (t : ℚ) (p1 p2 av : ℚ)
    (h1 : type_matches a e1 = true) (h2 : type_matches a e2 = true)
    (he1 : e1.icu_training_load = some p1) (hp1 : qltB (qof 0) p1 = true)
    (he2 : e2.icu_training_load = some p2) (hp2 : qltB (qof 0) p2 = true)
    (ha : a.training_stress_score = some av)
    (hvar : qleB (qdiv (qabs (qsub av p1)) p1) (qdiv (qabs (qsub av p2)) p2) = true) :
    calculate_match_confidence a e2 t ≤ calculate_match_confidence a e1 t := by
  have hp1q : (0:ℚ) < p1 := by
    have := (qltB_iff (qof 0) p1).1 hp1
    rwa [qof_zero] at this
  have hp2q : (0:ℚ) < p2 := by
    have := (qltB_iff (qof 0) p2).1 hp2
    rwa [qof_zero] at this
  have hvq : |av - p1| / p1 ≤ |av - p2| / p2 := by
    have := (qleB_iff _ _).1 hvar
    rwa [qdiv_eq, qdiv_eq, qabs_eq, qabs_eq, qsub_eq, qsub_eq] at this
  rw [calc_eq_amended, calc_eq_amended, amended_match_confidence,
    amended_match_confidence]
  simp only [h1, h2, Bool.not_true, Bool.false_eq_true, if_false, ha, he1, he2]
  by_cases hav : av = 0
  · rw [if_neg (by simp [hav]), if_neg (by simp [hav])]
  · have hg1 : av ≠ 0 ∧ p1 ≠ 0 ∧ 0 < p1 := ⟨hav, ne_of_gt hp1q, hp1q⟩
    have hg2 : av ≠ 0 ∧ p2 ≠ 0 ∧ 0 < p2 := ⟨hav, ne_of_gt hp2q, hp2q⟩
    rw [if_pos hg1, if_pos hg2]
    by_cases hb1 : |av - p1| / p1 ≤ 1/10
    · rw [if_pos hb1]
      by_cases hb2 : |av - p2| / p2 ≤ 1/10
      · rw [if_pos hb2]
      · rw [if_neg hb2]
        by_cases hb3 : |av - p2| / p2 ≤ t
        · rw [if_pos hb3]
          norm_num
        · rw [if_neg hb3]
          norm_num
    · rw [if_neg hb1]
      have hb2 : ¬ (|av - p2| / p2 ≤ 1/10) := fun hc => hb1 (le_trans hvq hc)
      rw [if_neg hb2]
      by_cases hb4 : |av - p2| / p2 ≤ t
      · rw [if_pos hb4, if_pos (le_trans hvq hb4)]
      · rw [if_neg hb4]
        by_cases hb3 : |av - p1| / p1 ≤ t
        · rw [if_pos hb3]
          norm_num
        · rw [if_neg hb3]

/--
Witness for C8 (amended): planned 220 has relative variance 1/11 ≈ 9.1%,
planned 181 has 19/181 ≈ 10.5%, so the theorem yields
`confidence(181-candidate) ≤ confidence(220-candidate)` for the activity with
TSS 200.
-/
theorem C8_confidence_monotone_amended_witness :
    (qleB (qdiv (qabs (qsub (qof 200) (qof 220))) (qof 220))
        (qdiv (qabs (qsub (qof 200) (qof 181))) (qof 181)) = true) ∧
    calculate_match_confidence mx200 eNear (mkRat 1 5) ≤
      calculate_match_confidence mx200 eFar (mkRat 1 5) :=
  ⟨by decide,
    C8_confidence_monotone_amended mx200 eFar eNear (mkRat 1 5)
      (qof 220) (qof 181) (qof 200)
      (by decide) (by decide) rfl (by decide) rfl (by decide) rfl (by decide)⟩

theorem p1a_fold_closed (events : List Event) :
    ∀ (activities : List Activity) (st : List Activity × List Activity × List String),
      activities.foldl (p1a_step (event_lookup events)) st =
        (st.1 ++ (activities.filter (p1_condB events)).map p1_decorate,
          st.2.1 ++ activities.filter (fun a => !(p1_condB events a)),
          st.2.2 ++ (activities.filter (p1_condB events)).map Activity.paired_event_id) := by
  intro activities
  induction activities with
  | nil =>
    intro st
    simp
  | cons a rest ih =>
    intro st
    rw [List.foldl_cons]
    by_cases hc : a.paired_event_id ≠ "" ∧ dictHas a.paired_event_id (event_lookup events) = true
    · have hcb : p1_condB events a = true := by
        rw [p1_condB, decide_eq_true_iff]
        exact hc
      have hstep : p1a_step (event_lookup events) st a =
          (st.1 ++ [p1_decorate a], st.2.1, st.2.2 ++ [a.paired_event_id]) := by
        rw [p1a_step, if_pos hc]
        rfl
      rw [hstep, ih]
      rw [List.filter_cons_of_pos (by simp [hcb]),
        List.filter_cons_of_neg (by simp [hcb])]
      simp
    · have hcb : p1_condB events a = false := by
        rw [p1_condB, decide_eq_false_iff_not]
        exact hc
      have hstep : p1a_step (event_lookup events) st a =
          (st.1, st.2.1 ++ [a], st.2.2) := by
        rw [p1a_step, if_neg hc]
      rw [hstep, ih]
      rw [List.filter_cons_of_neg (by simp [hcb]),
        List.filter_cons_of_pos (by simp [hcb])]
      simp

theorem p1e_fold_closed (mA : List Activity) (mIds : List String) :
    ∀ (events : List Event) (st : List Event × List Event),
      events.foldl (p1e_step mA mIds) st =
        (st.1 ++ (events.filter (fun e => decide (e.id ∈ mIds))).map (p1_complete mA),
          st.2 ++ (events.filter (fun e => !(decide (e.id ∈ mIds)))).map
            (fun e => { e with completed := false })) := by
  intro events
  induction events with
  | nil =>
    intro st
    simp
  | cons e rest ih =>
    intro st
    rw [List.foldl_cons]
    by_cases hc : e.id ∈ mIds
    · have hstep : p1e_step mA mIds st e = (st.1 ++ [p1_complete mA e], st.2) := by
        rw [p1e_step, if_pos hc]
        rfl
      rw [hstep, ih]
      rw [List.filter_cons_of_pos (by simp [hc]),
        List.filter_cons_of_neg (by simp [hc])]
      simp
    · have hstep : p1e_step mA mIds st e =
          (st.1, st.2 ++ [{ e with completed := false }]) := by
        rw [p1e_step, if_neg hc]
      rw [hstep, ih]
      rw [List.filter_cons_of_neg (by simp [hc]),
        List.filter_cons_of_pos (by simp [hc])]
      simp

/-- The full closed form of `_use_paired_event_id`. -/
theorem use_paired_event_id_closed (activities : List Activity) (events : List Event) :
    use_paired_event_id activities events =
      ((activities.filter (p1_condB events)).map p1_decorate,
        (events.filter (fun e => decide (e.id ∈
          (activities.filter (p1_condB events)).map Activity.paired_event_id))).map
          (p1_complete ((activities.filter (p1_condB events)).map p1_decorate)),
        activities.filter (fun a => !(p1_condB events a)),
        (events.filter (fun e => !(decide (e.id ∈
          (activities.filter (p1_condB events)).map Activity.paired_event_id)))).map
          (fun e => { e with completed := false })) := by
  rw [use_paired_event_id]
  rw [p1a_fold_closed events activities ([], [], [])]
  rw [p1e_fold_closed]
  simp

/-- Fold invariant where the step may use membership of the element. -/
theorem foldl_inv_mem {σ α : Type} (f : σ → α → σ) (l : List α) (P : σ → Prop)
    (hstep : ∀ st x, x ∈ l → P st → P (f st x)) :
    ∀ (sfx : List α), (∀ x ∈ sfx, x ∈ l) → ∀ st, P st → P (sfx.foldl f st) := by
  intro sfx
  induction sfx with
  | nil =>
    intro _ st h
    exact h
  | cons x rest ih =>
    intro hsub st h
    rw [List.foldl_cons]
    exact ih (fun y hy => hsub y (List.mem_cons_of_mem _ hy)) (f st x)
      (hstep st x (hsub x (List.mem_cons_self _ _)) h)

theorem events_by_date_eq_fold (events : List Event) :
    events_by_date events = events.foldl ebd_step [] := rfl

/-- Every event stored in an `events_by_date` bucket comes from the input list. -/
theorem mem_events_by_date (events : List Event) :
    ∀ (d : String) (cands : List Event), dictGet? d (events_by_date events) = some cands →
      ∀ e ∈ cands, e ∈ events := by
  rw [events_by_date_eq_fold]
  have hmain := foldl_inv_mem ebd_step events
    (fun dct => ∀ d cands, dictGet? d dct = some cands → ∀ e ∈ cands, e ∈ events)
    ?_ events (fun x hx => hx) [] ?_
  · intro d cands hget e he
    exact hmain d cands hget e he
  · intro dct event hmem hP d cands hget e he
    rw [ebd_step] at hget
    cases hd : extract_date event.start_date_local with
    | none =>
      rw [hd] at hget
      exact hP d cands hget e he
    | some event_date =>
      rw [hd] at hget
      have hget2 : dictGet? d (match dictGet? event_date dct with
          | none => dictInsert event_date [event] dct
          | some lst => dictInsert event_date (lst ++ [event]) dct) = some cands := hget
      cases hbucket : dictGet? event_date dct with
      | none =>
        rw [hbucket] at hget2
        have hget3 : dictGet? d (dictInsert event_date [event] dct) = some cands := hget2
        by_cases hdd : d = event_date
        · subst hdd
          rw [dictGet?_insert_self] at hget3
          injection hget3 with hc
          subst hc
          have he2 : e = event := by simpa using he
          rw [he2]
          exact hmem
        · rw [dictGet?_insert_ne _ _ hdd] at hget3
          exact hP d cands hget3 e he
      | some lst =>
        rw [hbucket] at hget2
        have hget3 : dictGet? d (dictInsert event_date (lst ++ [event]) dct) =
            some cands := hget2
        by_cases hdd : d = event_date
        · subst hdd
          rw [dictGet?_insert_self] at hget3
          injection hget3 with hc
          subst hc
          rcases List.mem_append.1 he with he2 | he2
          · exact hP d lst hbucket e he2
          · have he3 : e = event := by simpa using he2
            rw [he3]
            exact hmem
        · rw [dictGet?_insert_ne _ _ hdd] at hget3
          exact hP d cands hget3 e he
  · intro d cands hget
    rw [dictGet?] at hget
    exact absurd hget (by simp)

/--
Structure of the fuzzy fold: it appends a list of (decorated activity,
decorated event) pairs whose activity ids form a subsequence of the processed
activities and whose event ids are pairwise fresh; each decorated event's
`completed_activity_id` is exactly its partner activity's id.
-/
theorem fz_fold_struct (ebd : List (String × List Event)) (t : ℚ) :
    ∀ (acts : List Activity) (st : List Activity × List Event × List String),
      (st.2.2).Nodup →
      ∃ ps : List (Activity × Event),
        acts.foldl (fz_step ebd t) st =
          (st.1 ++ ps.map Prod.fst, st.2.1 ++ ps.map Prod.snd,
            st.2.2 ++ ps.map (fun p => p.2.id)) ∧
        (ps.map (fun p => p.1.id)).Sublist (acts.map Activity.id) ∧
        (st.2.2 ++ ps.map (fun p => p.2.id)).Nodup ∧
        ∀ p ∈ ps, ∃ a bm c, a ∈ acts ∧
          (∃ d cands, dictGet? d ebd = some cands ∧ bm ∈ cands) ∧
          p.1 = { a with planned_event_id := some bm.id, planned_match_confidence := some c } ∧
          p.2 = { bm with completed := true, completed_activity_id := a.id, completion_date := a.date } := by
  intro acts
  induction acts with
  | nil =>
    intro st hn
    refine ⟨[], by simp, by simp, by simpa using hn, ?_⟩
    intro p hp
    simp at hp
  | cons a rest ih =>
    intro st hn
    rw [List.foldl_cons]
    rcases fz_step_cases ebd t st a with heq |
      ⟨bm, d, cands, hdx, hg, hmemc, hnotin, hb1, hb2, hacc, heq⟩
    · rw [heq]
      obtain ⟨ps, h1, h2, h3, h4⟩ := ih st hn
      refine ⟨ps, h1, ?_, h3, ?_⟩
      · exact h2.trans (List.sublist_cons_self _ _)
      · intro p hp
        obtain ⟨a2, bm2, c2, hmem2, hbm2, hp1, hp2⟩ := h4 p hp
        exact ⟨a2, bm2, c2, List.mem_cons_of_mem _ hmem2, hbm2, hp1, hp2⟩
    · rw [heq]
      have hn2 : (st.2.2 ++ [bm.id]).Nodup := by
        simp [List.nodup_append, hn, hnotin]
      obtain ⟨ps, h1, h2, h3, h4⟩ := ih
        (st.1 ++ [{ a with planned_event_id := some bm.id, planned_match_confidence := some (best_candidate a t st.2.2 cands).2 }],
          st.2.1 ++ [{ bm with completed := true, completed_activity_id := a.id, completion_date := a.date }],
          st.2.2 ++ [bm.id]) hn2
      refine ⟨({ a with planned_event_id := some bm.id, planned_match_confidence := some (best_candidate a t st.2.2 cands).2 },
          { bm with completed := true, completed_activity_id := a.id, completion_date := a.date }) :: ps, ?_, ?_, ?_, ?_⟩
      · rw [h1]
        simp
      · refine List.Sublist.cons₂ _ ?_
        simpa using h2
      · rw [List.map_cons]
        have h3b := h3
        simp only [List.append_assoc] at h3b
        simpa using h3b
      · intro p hp
        rcases List.mem_cons.1 hp with hp2 | hp2
        · refine ⟨a, bm, (best_candidate a t st.2.2 cands).2,
            List.mem_cons_self _ _, ⟨d, cands, hg, hmemc⟩, ?_, ?_⟩
          · rw [hp2]
          · rw [hp2]
        · obtain ⟨a2, bm2, c2, hmem2, hbm2, hp1b, hp2b⟩ := h4 p hp2
          exact ⟨a2, bm2, c2, List.mem_cons_of_mem _ hmem2, hbm2, hp1b, hp2b⟩

theorem use_paired_event_id_closed2 (activities : List Activity) (events : List Event) :
    use_paired_event_id activities events =
      (p1mA activities events, p1mE activities events, p1uA activities events,
        p1uE activities events) := by
  rw [use_paired_event_id_closed]
  rfl

/-- `match_workouts` in terms of the named phase-1 components. -/
theorem match_workouts_closed (events : List Event) (activities : List Activity) (t : ℚ) :
    match_workouts events activities t =
      (p1mA activities events ++
          (fuzzy_match (p1uA activities events) (p1uE activities events) t).1 ++
          (p1uA activities events).filter (fun a =>
            !(((fuzzy_match (p1uA activities events) (p1uE activities events) t).1.map
                Activity.id).contains a.id)),
        p1mE activities events ++
          (fuzzy_match (p1uA activities events) (p1uE activities events) t).2 ++
          (p1uE activities events).filter (fun e =>
            !(((fuzzy_match (p1uA activities events) (p1uE activities events) t).2.map
                Event.id).contains e.id))) := by
  simp only [match_workouts, use_paired_event_id_closed2]

/-- The fuzzy matcher's two outputs are the two projections of one list of
(decorated activity, decorated event) pairs drawn from its inputs. -/
theorem fuzzy_match_struct (acts : List Activity) (evs : List Event) (t : ℚ) :
    ∃ ps : List (Activity × Event),
      (fuzzy_match acts evs t).1 = ps.map Prod.fst ∧
      (fuzzy_match acts evs t).2 = ps.map Prod.snd ∧
      (ps.map (fun p => p.1.id)).Sublist (acts.map Activity.id) ∧
      (ps.map (fun p => p.2.id)).Nodup ∧
      ∀ p ∈ ps, ∃ a bm c, a ∈ acts ∧ bm ∈ evs ∧
        p.1 = { a with planned_event_id := some bm.id,
                       planned_match_confidence := some c } ∧
        p.2 = { bm with completed := true, completed_activity_id := a.id,
                        completion_date := a.date } := by
  obtain ⟨ps, h1, h2, h3, h4⟩ :=
    fz_fold_struct (events_by_date evs) t acts ([], [], []) (by simp)
  refine ⟨ps, ?_, ?_, h2, ?_, ?_⟩
  · have e1 : (fuzzy_match acts evs t).1 =
        (acts.foldl (fz_step (events_by_date evs) t) ([], [], [])).1 := rfl
    rw [e1, h1]
    simp
  · have e2 : (fuzzy_match acts evs t).2 =
        (acts.foldl (fz_step (events_by_date evs) t) ([], [], [])).2.1 := rfl
    rw [e2, h1]
    simp
  · simpa using h3
  · intro p hp
    obtain ⟨a, bm, c, ha, ⟨d, cands, hg, hmemc⟩, hp1, hp2⟩ := h4 p hp
    exact ⟨a, bm, c, ha, mem_events_by_date evs d cands hg bm hmemc, hp1, hp2⟩

theorem contains_iff_mem_str (S : List String) (s : String) :
    S.contains s = true ↔ s ∈ S := by
  simp

/-- Splitting a nodup-keyed list along a nodup key set `S` drawn from it: its
keys are a permutation of `S` followed by the keys outside `S`. -/
theorem perm_filter_split {β : Type} (idOf : β → String) (l : List β) (S : List String)
    (hnl : (l.map idOf).Nodup) (hnS : S.Nodup)
    (hsub : ∀ s ∈ S, s ∈ l.map idOf) :
    (l.map idOf).Perm
      (S ++ (l.filter (fun x => !(S.contains (idOf x)))).map idOf) := by
  have hS : ((l.filter (fun x => S.contains (idOf x))).map idOf).Perm S := by
    refine (List.perm_ext_iff_of_nodup
      (((List.filter_sublist l).map idOf).nodup hnl) hnS).2 ?_
    intro x
    constructor
    · intro hx
      obtain ⟨b, hb, hbx⟩ := List.mem_map.1 hx
      have hbc := (List.mem_filter.1 hb).2
      rw [← hbx]
      exact (contains_iff_mem_str S (idOf b)).1 hbc
    · intro hx
      obtain ⟨b, hbl, hbx⟩ := List.mem_map.1 (hsub x hx)
      refine List.mem_map.2 ⟨b, List.mem_filter.2 ⟨hbl, ?_⟩, hbx⟩
      exact (contains_iff_mem_str S (idOf b)).2 (by rw [hbx]; exact hx)
  have hperm := (List.filter_append_perm (fun x => S.contains (idOf x)) l).map idOf
  rw [List.map_append] at hperm
  exact hperm.symm.trans (hS.append_right _)

theorem p1mA_ids (activities : List Activity) (events : List Event) :
    (p1mA activities events).map Activity.id =
      (activities.filter (p1_condB events)).map Activity.id := by
  rw [p1mA, List.map_map]
  rfl

theorem p1mE_ids (activities : List Activity) (events : List Event) :
    (p1mE activities events).map Event.id =
      (events.filter (fun e => decide (e.id ∈ p1mIds activities events))).map Event.id := by
  rw [p1mE, List.map_map]
  rfl

theorem p1uE_ids (activities : List Activity) (events : List Event) :
    (p1uE activities events).map Event.id =
      (events.filter (fun e => !(decide (e.id ∈ p1mIds activities events)))).map Event.id := by
  rw [p1uE, List.map_map]
  rfl

/-- The matcher's first output list carries exactly the input activity ids. -/
theorem matcher_activity_ids (events : List Event) (activities : List Activity) (t : ℚ)
    (hA : (activities.map Activity.id).Nodup) :
    ((match_workouts events activities t).1.map Activity.id).Perm
      (activities.map Activity.id) := by
  rw [match_workouts_closed]
  obtain ⟨ps, hf1, hf2, hsub, hnod, hdec⟩ :=
    fuzzy_match_struct (p1uA activities events) (p1uE activities events) t
  have huA_sub : ((p1uA activities events).map Activity.id).Sublist
      (activities.map Activity.id) :=
    (List.filter_sublist activities).map Activity.id
  have huA_nodup := huA_sub.nodup hA
  have hS_eq : ((fuzzy_match (p1uA activities events) (p1uE activities events) t).1.map
      Activity.id) = ps.map (fun p => p.1.id) := by
    rw [hf1, List.map_map]
    rfl
  have hS_nodup : (((fuzzy_match (p1uA activities events) (p1uE activities events) t).1.map
      Activity.id)).Nodup := by
    rw [hS_eq]
    exact hsub.nodup huA_nodup
  have hS_sub : ∀ s ∈ ((fuzzy_match (p1uA activities events) (p1uE activities events) t).1.map
      Activity.id), s ∈ (p1uA activities events).map Activity.id := by
    rw [hS_eq]
    exact fun s hs => hsub.subset hs
  have hsplit := perm_filter_split Activity.id (p1uA activities events)
    ((fuzzy_match (p1uA activities events) (p1uE activities events) t).1.map Activity.id)
    huA_nodup hS_nodup hS_sub
  have hsplit2 : ((activities.filter (p1_condB events)).map Activity.id ++
      ((fuzzy_match (p1uA activities events) (p1uE activities events) t).1.map Activity.id ++
        ((p1uA activities events).filter (fun a =>
          !(((fuzzy_match (p1uA activities events) (p1uE activities events) t).1.map
            Activity.id).contains a.id))).map Activity.id)).Perm
      (activities.map Activity.id) := by
    refine List.Perm.trans (List.Perm.append_left _ hsplit.symm) ?_
    have hfa := (List.filter_append_perm (p1_condB events) activities).map Activity.id
    simpa [List.map_append, p1uA] using hfa
  refine List.Perm.trans ?_ hsplit2
  rw [List.map_append, List.map_append, p1mA_ids, List.append_assoc]

/-- The matcher's second output list carries exactly the input event ids. -/
theorem matcher_event_ids (events : List Event) (activities : List Activity) (t : ℚ)
    (hE : (events.map Event.id).Nodup) :
    ((match_workouts events activities t).2.map Event.id).Perm
      (events.map Event.id) := by
  rw [match_workouts_closed]
  obtain ⟨ps, hf1, hf2, hsub, hnod, hdec⟩ :=
    fuzzy_match_struct (p1uA activities events) (p1uE activities events) t
  have huE_sub : ((p1uE activities events).map Event.id).Sublist
      (events.map Event.id) := by
    rw [p1uE_ids]
    exact (List.filter_sublist events).map Event.id
  have huE_nodup := huE_sub.nodup hE
  have hS_eq : ((fuzzy_match (p1uA activities events) (p1uE activities events) t).2.map
      Event.id) = ps.map (fun p => p.2.id) := by
    rw [hf2, List.map_map]
    rfl
  have hS_nodup : (((fuzzy_match (p1uA activities events) (p1uE activities events) t).2.map
      Event.id)).Nodup := by
    rw [hS_eq]
    exact hnod
  have hS_sub : ∀ s ∈ ((fuzzy_match (p1uA activities events) (p1uE activities events) t).2.map
      Event.id), s ∈ (p1uE activities events).map Event.id := by
    rw [hS_eq]
    intro s hs
    obtain ⟨p, hp, hps⟩ := List.mem_map.1 hs
    obtain ⟨a, bm, c, ha, hbm, hp1, hp2⟩ := hdec p hp
    refine List.mem_map.2 ⟨bm, hbm, ?_⟩
    simp [← hps, hp2]
  have hsplit := perm_filter_split Event.id (p1uE activities events)
    ((fuzzy_match (p1uA activities events) (p1uE activities events) t).2.map Event.id)
    huE_nodup hS_nodup hS_sub
  have hsplit2 : ((events.filter (fun e => decide (e.id ∈ p1mIds activities events))).map
        Event.id ++
      ((fuzzy_match (p1uA activities events) (p1uE activities events) t).2.map Event.id ++
        ((p1uE activities events).filter (fun e =>
          !(((fuzzy_match (p1uA activities events) (p1uE activities events) t).2.map
            Event.id).contains e.id))).map Event.id)).Perm
      (events.map Event.id) := by
    refine List.Perm.trans (List.Perm.append_left _ hsplit.symm) ?_
    have hfe := (List.filter_append_perm
      (fun e => decide (e.id ∈ p1mIds activities events)) events).map Event.id
    rw [p1uE_ids]
    simpa [List.map_append] using hfe
  refine List.Perm.trans ?_ hsplit2
  rw [List.map_append, List.map_append, p1mE_ids, List.append_assoc]

/-- Phase 1's completion decoration targets an activity of `p1mA` whose
`planned_event_id` names exactly the decorated event. -/
theorem p1mE_target (activities : List Activity) (events : List Event) :
    ∀ ev ∈ events.filter (fun e => decide (e.id ∈ p1mIds activities events)),
      ∃ a1 ∈ p1mA activities events,
        a1.planned_event_id = some ev.id ∧
        (p1_complete (p1mA activities events) ev).completed_activity_id = a1.id := by
  intro ev hev
  have hin : ev.id ∈ p1mIds activities events := by
    have h := (List.mem_filter.1 hev).2
    simpa using h
  have hin2 : ev.id ∈ (activities.filter (p1_condB events)).map
      Activity.paired_event_id := hin
  obtain ⟨a0, ha0, hpe⟩ := List.mem_map.1 hin2
  have hmem : p1_decorate a0 ∈ p1mA activities events :=
    List.mem_map.2 ⟨a0, ha0, rfl⟩
  have hsat : ((p1_decorate a0).planned_event_id == some ev.id) = true := by
    simp [p1_decorate, hpe]
  have hsome : (((p1mA activities events).find?
      (fun a => a.planned_event_id == some ev.id)).isSome) = true := by
    rw [List.find?_isSome]
    exact ⟨p1_decorate a0, hmem, hsat⟩
  obtain ⟨a1, ha1⟩ := Option.isSome_iff_exists.1 hsome
  refine ⟨a1, List.mem_of_find?_eq_some ha1, ?_, ?_⟩
  · have h := List.find?_some ha1
    simpa using h
  · show (((p1mA activities events).find?
        (fun a => a.planned_event_id == some ev.id)).getD junkActivity).id = a1.id
    rw [ha1]
    rfl

/-- Events that phase 1 leaves unmatched come out with `completed = false`. -/
theorem p1uE_not_completed (activities : List Activity) (events : List Event) :
    ∀ y ∈ p1uE activities events, y.completed = false := by
  intro y hy
  have hy2 : y ∈ (events.filter (fun e =>
      !(decide (e.id ∈ p1mIds activities events)))).map
      (fun e => { e with completed := false }) := hy
  obtain ⟨e, he, hye⟩ := List.mem_map.1 hy2
  rw [← hye]

/-- Among completed output events the completion targets are pairwise
distinct: no activity is claimed by two events. -/
theorem matcher_completed_targets (events : List Event) (activities : List Activity) (t : ℚ)
    (hA : (activities.map Activity.id).Nodup) (hE : (events.map Event.id).Nodup) :
    ∀ y1 ∈ (match_workouts events activities t).2,
      ∀ y2 ∈ (match_workouts events activities t).2,
        y1.completed = true → y2.completed = true →
        y1.completed_activity_id = y2.completed_activity_id → y1 = y2 := by
  rw [match_workouts_closed]
  obtain ⟨ps, hf1, hf2, hsub, hnod, hdec⟩ :=
    fuzzy_match_struct (p1uA activities events) (p1uE activities events) t
  have hmA_nodup : ((p1mA activities events).map Activity.id).Nodup := by
    rw [p1mA_ids]
    exact ((List.filter_sublist activities).map Activity.id).nodup hA
  have huA_sub : ((p1uA activities events).map Activity.id).Sublist
      (activities.map Activity.id) :=
    (List.filter_sublist activities).map Activity.id
  have hps_nodup : (ps.map (fun p => p.1.id)).Nodup := hsub.nodup (huA_sub.nodup hA)
  have hprov : ∀ y ∈ (p1mE activities events ++
        (fuzzy_match (p1uA activities events) (p1uE activities events) t).2 ++
        (p1uE activities events).filter (fun e =>
          !(((fuzzy_match (p1uA activities events) (p1uE activities events) t).2.map
            Event.id).contains e.id))),
      y.completed = true →
      (∃ ev ∈ events.filter (fun e => decide (e.id ∈ p1mIds activities events)),
        ∃ a1 ∈ p1mA activities events,
          y = p1_complete (p1mA activities events) ev ∧
          a1.planned_event_id = some ev.id ∧ y.completed_activity_id = a1.id) ∨
      (∃ p ∈ ps, y = p.2 ∧ y.completed_activity_id = p.1.id) := by
    intro y hy hc
    rcases List.mem_append.1 hy with hy2 | hy2
    · rcases List.mem_append.1 hy2 with hy3 | hy3
      · have hy4 : y ∈ (events.filter (fun e =>
            decide (e.id ∈ p1mIds activities events))).map
            (p1_complete (p1mA activities events)) := hy3
        obtain ⟨ev, hev, hyeq⟩ := List.mem_map.1 hy4
        obtain ⟨a1, ha1, hpe, htgt⟩ := p1mE_target activities events ev hev
        exact Or.inl ⟨ev, hev, a1, ha1, hyeq.symm, hpe, by rw [← hyeq]; exact htgt⟩
      · rw [hf2] at hy3
        obtain ⟨p, hp, hyeq⟩ := List.mem_map.1 hy3
        obtain ⟨a, bm, c, ha, hbm, hp1, hp2⟩ := hdec p hp
        refine Or.inr ⟨p, hp, hyeq.symm, ?_⟩
        rw [← hyeq, hp2, hp1]
    · exfalso
      have hy3 := List.mem_of_mem_filter hy2
      rw [p1uE_not_completed activities events y hy3] at hc
      exact absurd hc (by simp)
  intro y1 hy1 y2 hy2 hc1 hc2 htgt
  rcases hprov y1 hy1 hc1 with ⟨ev1, hev1, a1, ha1, hy1eq, hpe1, ht1⟩ | ⟨p, hp, hy1eq, ht1⟩
  · rcases hprov y2 hy2 hc2 with ⟨ev2, hev2, a2, ha2, hy2eq, hpe2, ht2⟩ | ⟨q, hq, hy2eq, ht2⟩
    · have hid : a1.id = a2.id := by rw [← ht1, ← ht2, htgt]
      have ha12 : a1 = a2 := List.inj_on_of_nodup_map hmA_nodup ha1 ha2 hid
      have hev12 : ev1 = ev2 := by
        have h := hpe1
        rw [ha12, hpe2] at h
        injection h with h2
        exact List.inj_on_of_nodup_map hE (List.mem_of_mem_filter hev1)
          (List.mem_of_mem_filter hev2) h2.symm
      rw [hy1eq, hy2eq, hev12]
    · exfalso
      obtain ⟨a, bm, c, ha, hbm, hq1, hq2⟩ := hdec q hq
      have hq1id : q.1.id = a.id := by rw [hq1]
      have hid : a1.id = a.id := by rw [← ht1, htgt, ht2, hq1id]
      have ha1' : a1.id ∈ (activities.filter (p1_condB events)).map Activity.id := by
        rw [← p1mA_ids]
        exact List.mem_map.2 ⟨a1, ha1, rfl⟩
      obtain ⟨a0, ha0, ha0id⟩ := List.mem_map.1 ha1'
      have ha2 : a ∈ activities.filter (fun a => !(p1_condB events a)) := ha
      have hcT : p1_condB events a0 = true := (List.mem_filter.1 ha0).2
      have hcF : (!(p1_condB events a)) = true := (List.mem_filter.1 ha2).2
      have ha0a : a0 = a :=
        List.inj_on_of_nodup_map hA (List.mem_of_mem_filter ha0)
          (List.mem_of_mem_filter ha2) (by rw [ha0id, hid])
      rw [ha0a] at hcT
      rw [hcT] at hcF
      exact absurd hcF (by simp)
  · rcases hprov y2 hy2 hc2 with ⟨ev2, hev2, a2, ha2, hy2eq, hpe2, ht2⟩ | ⟨q, hq, hy2eq, ht2⟩
    · exfalso
      obtain ⟨a, bm, c, ha, hbm, hp1, hp2⟩ := hdec p hp
      have hp1id : p.1.id = a.id := by rw [hp1]
      have hid : a2.id = a.id := by rw [← ht2, ← htgt, ht1, hp1id]
      have ha2' : a2.id ∈ (activities.filter (p1_condB events)).map Activity.id := by
        rw [← p1mA_ids]
        exact List.mem_map.2 ⟨a2, ha2, rfl⟩
      obtain ⟨a0, ha0, ha0id⟩ := List.mem_map.1 ha2'
      have ha3 : a ∈ activities.filter (fun a => !(p1_condB events a)) := ha
      have hcT : p1_condB events a0 = true := (List.mem_filter.1 ha0).2
      have hcF : (!(p1_condB events a)) = true := (List.mem_filter.1 ha3).2
      have ha0a : a0 = a :=
        List.inj_on_of_nodup_map hA (List.mem_of_mem_filter ha0)
          (List.mem_of_mem_filter ha3) (by rw [ha0id, hid])
      rw [ha0a] at hcT
      rw [hcT] at hcF
      exact absurd hcF (by simp)
    · have hpq : p.1.id = q.1.id := by rw [← ht1, ← ht2, htgt]
      have hpq2 : p = q := List.inj_on_of_nodup_map hps_nodup hp hq hpq
      rw [hy1eq, hy2eq, hpq2]

/-- **C5** (counterexample): unmatched records are passed through with their
stale annotations intact, not cleared.  The activity `aStale`, unmatched in a
pass with no events at all, still carries its old `planned_event_id`
(`"e_old"`); the event `eStale`, unmatched in a pass with no activities, gets
`completed := false` but keeps its old `completed_activity_id` (`"a_old"`) and
`completion_date` — contradicting the claim that an unmatched activity "has no
matched_event_id" and an unmatched event "carries no completed_activity_id or
completion_date". -/
theorem C5_counterexample :
    (∀ x ∈ (match_workouts [] [aStale] (mkRat 1 5)).1, x = aStale) ∧
    ¬ (∀ x ∈ (match_workouts [] [aStale] (mkRat 1 5)).1,
        x.planned_event_id = none) ∧
    (∀ y ∈ (match_workouts [eStale] [] (mkRat 1 5)).2,
        y = { eStale with completed := false }) ∧
    ¬ (∀ y ∈ (match_workouts [eStale] [] (mkRat 1 5)).2,
        y.completed_activity_id = "" ∧ y.completion_date = "") := by
  decide

/-- **C5** (amended): the matcher returns exactly the original records
decorated in place — under pairwise-distinct ids the two output lists carry
exactly the input ids — and every output record is an input record with at
most the annotation fields overwritten: an output activity is either literally
an input activity (pass-through retains all prior fields, including any stale
`planned_event_id` / `planned_match_confidence`) or an input activity with
exactly those two fields rewritten; an output event is an input event with
only `completed := false` overwritten (retaining any stale
`completed_activity_id` / `completion_date`) or fully completion-decorated. -/
theorem C5_decoration_amended (events : List Event) (activities : List Activity) (t : ℚ)
    (hA : (activities.map Activity.id).Nodup) (hE : (events.map Event.id).Nodup) :
    ((match_workouts events activities t).1.map Activity.id).Perm
        (activities.map Activity.id) ∧
    ((match_workouts events activities t).2.map Event.id).Perm
        (events.map Event.id) ∧
    (∀ x ∈ (match_workouts events activities t).1,
      x ∈ activities ∨
      ∃ a ∈ activities, ∃ eid c, x = { a with planned_event_id := some eid, planned_match_confidence := some c }) ∧
    (∀ y ∈ (match_workouts events activities t).2,
      (∃ e ∈ events, y = { e with completed := false }) ∨
      ∃ e ∈ events, ∃ aid dt, y = { e with completed := true, completed_activity_id := aid, completion_date := dt }) := by
  refine ⟨matcher_activity_ids events activities t hA,
    matcher_event_ids events activities t hE, ?_, ?_⟩
  · rw [match_workouts_closed]
    obtain ⟨ps, hf1, hf2, hsub, hnod, hdec⟩ :=
      fuzzy_match_struct (p1uA activities events) (p1uE activities events) t
    intro x hx
    rcases List.mem_append.1 hx with hx2 | hx2
    · rcases List.mem_append.1 hx2 with hx3 | hx3
      · have hx4 : x ∈ (activities.filter (p1_condB events)).map p1_decorate := hx3
        obtain ⟨a0, ha0, hxeq⟩ := List.mem_map.1 hx4
        exact Or.inr ⟨a0, List.mem_of_mem_filter ha0, a0.paired_event_id, qof 1,
          hxeq.symm⟩
      · rw [hf1] at hx3
        obtain ⟨p, hp, hxeq⟩ := List.mem_map.1 hx3
        obtain ⟨a, bm, c, ha, hbm, hp1, hp2⟩ := hdec p hp
        have ha2 : a ∈ activities.filter (fun a => !(p1_condB events a)) := ha
        refine Or.inr ⟨a, List.mem_of_mem_filter ha2, bm.id, c, ?_⟩
        rw [← hxeq]
        exact hp1
    · have hx3 := List.mem_of_mem_filter hx2
      have hx4 : x ∈ activities.filter (fun a => !(p1_condB events a)) := hx3
      exact Or.inl (List.mem_of_mem_filter hx4)
  · rw [match_workouts_closed]
    obtain ⟨ps, hf1, hf2, hsub, hnod, hdec⟩ :=
      fuzzy_match_struct (p1uA activities events) (p1uE activities events) t
    intro y hy
    rcases List.mem_append.1 hy with hy2 | hy2
    · rcases List.mem_append.1 hy2 with hy3 | hy3
      · have hy4 : y ∈ (events.filter (fun e =>
            decide (e.id ∈ p1mIds activities events))).map
            (p1_complete (p1mA activities events)) := hy3
        obtain ⟨ev, hev, hyeq⟩ := List.mem_map.1 hy4
        exact Or.inr ⟨ev, List.mem_of_mem_filter hev, _, _, hyeq.symm⟩
      · rw [hf2] at hy3
        obtain ⟨p, hp, hyeq⟩ := List.mem_map.1 hy3
        obtain ⟨a, bm, c, ha, hbm, hp1, hp2⟩ := hdec p hp
        have hbm3 : bm ∈ (events.filter (fun e =>
            !(decide (e.id ∈ p1mIds activities events)))).map
            (fun e => { e with completed := false }) := hbm
        obtain ⟨e0, he0, hbme⟩ := List.mem_map.1 hbm3
        refine Or.inr ⟨e0, List.mem_of_mem_filter he0, a.id, a.date, ?_⟩
        rw [← hyeq, hp2, ← hbme]
    · have hy3 := List.mem_of_mem_filter hy2
      have hy4 : y ∈ (events.filter (fun e =>
          !(decide (e.id ∈ p1mIds activities events)))).map
          (fun e => { e with completed := false }) := hy3
      obtain ⟨e0, he0, hyeq⟩ := List.mem_map.1 hy4
      exact Or.inl ⟨e0, List.mem_of_mem_filter he0, hyeq.symm⟩

/-- Witness for `C5_decoration_amended` at a concrete input. -/
theorem C5_decoration_amended_witness :
    ((match_workouts [eStale] [aStale] (mkRat 1 5)).1.map Activity.id).Perm
      ([aStale].map Activity.id) :=
  (C5_decoration_amended [eStale] [aStale] (mkRat 1 5) (by decide) (by decide)).1

/-- **C10**: for inputs with pairwise-distinct activity ids and event ids, the
matcher's output lists carry exactly the input ids — every input activity and
event appears exactly once, none dropped, none duplicated — completed output
events name pairwise-distinct completing activities (no activity is recorded
by two events), and each output activity references at most one
`planned_event_id`. -/
theorem C10_matcher_invariants (events : List Event) (activities : List Activity) (t : ℚ)
    (hA : (activities.map Activity.id).Nodup) (hE : (events.map Event.id).Nodup) :
    ((match_workouts events activities t).1.map Activity.id).Perm
        (activities.map Activity.id) ∧
    ((match_workouts events activities t).2.map Event.id).Perm
        (events.map Event.id) ∧
    (∀ y1 ∈ (match_workouts events activities t).2,
      ∀ y2 ∈ (match_workouts events activities t).2,
        y1.completed = true → y2.completed = true →
        y1.completed_activity_id = y2.completed_activity_id → y1 = y2) ∧
    (∀ x ∈ (match_workouts events activities t).1, ∀ e1 e2 : String,
      x.planned_event_id = some e1 → x.planned_event_id = some e2 → e1 = e2) :=
  ⟨matcher_activity_ids events activities t hA,
   matcher_event_ids events activities t hE,
   matcher_completed_targets events activities t hA hE,
   fun _ _ e1 e2 h1 h2 => by rw [h1] at h2; exact Option.some.inj h2⟩

/-- Witness for `C10_matcher_invariants` at a concrete input. -/
theorem C10_matcher_invariants_witness :
    ((match_workouts [eStale] [aStale] (mkRat 7 20)).2.map Event.id).Perm
      ([eStale].map Event.id) :=
  (C10_matcher_invariants [eStale] [aStale] (mkRat 7 20) (by decide) (by decide)).2.1

/--
**C4** (code bug): `_create_metadata` reads `activities[0]` under the comment
"Activities are already sorted newest first", but `sync_athlete_data` hands it
the output of `match_workouts`, which reorders the merged (date-descending)
list: phase-1 matched activities come first.  Here the merge produces the
date-descending order `[a_new, a_old]`, the matcher moves the paired `a_old`
to the front, and the persisted high-water mark becomes `a_old`'s date
`2024-03-01…` even though the most recent synced activity is dated
`2024-03-10…`. -/
theorem C4_metadata_highwater_bug :
    ((merge_activities noParse 0 [] [aOld, aNew]).map Activity.id =
      ["a_new", "a_old"]) ∧
    ((sync_incremental noParse 0 noCal noCal (mkRat 1 5) [] [aOld, aNew] [] [e1ev]).activities.map
      Activity.id = ["a_old", "a_new"]) ∧
    ("2024-03-10T08:00:00" ∈
      (sync_incremental noParse 0 noCal noCal (mkRat 1 5) [] [aOld, aNew] [] [e1ev]).activities.map
        Activity.date) ∧
    (∀ d ∈ (sync_incremental noParse 0 noCal noCal (mkRat 1 5) [] [aOld, aNew] [] [e1ev]).activities.map
        Activity.date, strLeB d "2024-03-10T08:00:00" = true) ∧
    ((sync_incremental noParse 0 noCal noCal (mkRat 1 5) [] [aOld, aNew] [] [e1ev]).metadata.last_activity_date
      = some "2024-03-01T08:00:00") := by
  decide

/-- **C3** (counterexample): running the sync twice with no new remote data is
NOT idempotent.  The merge re-sorts the activities date-descending, so the
greedy order-sensitive fuzzy matcher processes `a2` first on the second run
and the two activities swap their matched events; activities, events and the
index all differ byte-wise between the runs. -/
theorem C3_counterexample :
    (syncRun1.activities.map (fun a => (a.id, a.planned_event_id)) =
      [("a1", some "e1"), ("a2", some "e2")]) ∧
    (∀ a ∈ syncRun1.activities, mergeKeepB Activity.date cParse (-1) a = false) ∧
    (∀ e ∈ syncRun1.events, mergeKeepB Event.start_date_local cParse (-1) e = false) ∧
    (syncRun1.activities.map Activity.id = [ca1, ca2].map Activity.id) ∧
    (syncRun1.events.map Event.id = [ce1, ce2].map Event.id) ∧
    (syncRun2.activities.map (fun a => (a.id, a.planned_event_id)) =
      [("a2", some "e1"), ("a1", some "e2")]) ∧
    syncRun2.activities ≠ syncRun1.activities ∧
    syncRun2.events ≠ syncRun1.events ∧
    syncRun2.index ≠ syncRun1.index := by
  decide

/-- The merged ids are exactly the existing ids whenever the fetch re-returns
every record inside the window and brings nothing new. -/
theorem mergeKeyed_ids_stable {α : Type} (idOf dateOf : α → String)
    (parse : String → Option ℤ) (twa : ℤ) (existing new : List α)
    (hneE : ∀ x ∈ existing, idOf x ≠ "") (hndE : (existing.map idOf).Nodup)
    (hneN : ∀ x ∈ new, idOf x ≠ "") (hndN : (new.map idOf).Nodup)
    (hcov : ∀ x ∈ existing, mergeKeepB dateOf parse twa x = false →
      idOf x ∈ new.map idOf)
    (hnoNew : ∀ x ∈ new, idOf x ∈ existing.map idOf) :
    ((mergeKeyed idOf dateOf parse twa existing new).map idOf).Perm
      (existing.map idOf) := by
  refine (List.perm_ext_iff_of_nodup
    (mergeKeyed_ids_nodup idOf dateOf parse twa existing new) hndE).2 ?_
  intro i
  constructor
  · intro hi
    obtain ⟨r, hr, hri⟩ := List.mem_map.1 hi
    rcases (mergeKeyed_mem_iff idOf dateOf parse twa existing new r
        hneE hndE hneN hndN).1 hr with hnew | ⟨hex, _, _⟩
    · rw [← hri]
      exact hnoNew r hnew
    · rw [← hri]
      exact List.mem_map_of_mem idOf hex
  · intro hi
    obtain ⟨a, ha, hai⟩ := List.mem_map.1 hi
    by_cases hkeep : mergeKeepB dateOf parse twa a = true
    · by_cases hin : idOf a ∈ new.map idOf
      · obtain ⟨x, hx, hxi⟩ := List.mem_map.1 hin
        have hxm : x ∈ mergeKeyed idOf dateOf parse twa existing new :=
          (mergeKeyed_mem_iff idOf dateOf parse twa existing new x
            hneE hndE hneN hndN).2 (Or.inl hx)
        rw [← hai, ← hxi]
        exact List.mem_map_of_mem idOf hxm
      · have ham : a ∈ mergeKeyed idOf dateOf parse twa existing new :=
          (mergeKeyed_mem_iff idOf dateOf parse twa existing new a
            hneE hndE hneN hndN).2 (Or.inr ⟨ha, hkeep, hin⟩)
        rw [← hai]
        exact List.mem_map_of_mem idOf ham
    · have hin : idOf a ∈ new.map idOf :=
        hcov a ha (Bool.eq_false_iff.2 hkeep)
      obtain ⟨x, hx, hxi⟩ := List.mem_map.1 hin
      have hxm : x ∈ mergeKeyed idOf dateOf parse twa existing new :=
        (mergeKeyed_mem_iff idOf dateOf parse twa existing new x
          hneE hndE hneN hndN).2 (Or.inl hx)
      rw [← hai, ← hxi]
      exact List.mem_map_of_mem idOf hxm

/-- **C3** (amended): a second sync run whose fetch re-returns every persisted
record inside the re-fetch window and brings no record with an unseen id
preserves the RECORD ID SETS of the persisted activities and events — each id
appears exactly once in the new output, none dropped, none added — though the
byte-level annotations and indices may differ (the greedy fuzzy matcher is
order-sensitive). -/
theorem C3_idempotent_ids_amended
    (parse : String → Option ℤ) (twa : ℤ) (isoCal weekStartOf : String → Option String)
    (t : ℚ) (existingA newA : List Activity) (existingE newE : List Event)
    (hneA : ∀ a ∈ existingA, a.id ≠ "") (hndA : (existingA.map Activity.id).Nodup)
    (hneNA : ∀ a ∈ newA, a.id ≠ "") (hndNA : (newA.map Activity.id).Nodup)
    (hneE : ∀ e ∈ existingE, e.id ≠ "") (hndE : (existingE.map Event.id).Nodup)
    (hneNE : ∀ e ∈ newE, e.id ≠ "") (hndNE : (newE.map Event.id).Nodup)
    (hcovA : ∀ a ∈ existingA, mergeKeepB Activity.date parse twa a = false →
      a.id ∈ newA.map Activity.id)
    (hnoNewA : ∀ a ∈ newA, a.id ∈ existingA.map Activity.id)
    (hcovE : ∀ e ∈ existingE, mergeKeepB Event.start_date_local parse twa e = false →
      e.id ∈ newE.map Event.id)
    (hnoNewE : ∀ e ∈ newE, e.id ∈ existingE.map Event.id) :
    (((sync_incremental parse twa isoCal weekStartOf t existingA newA
        existingE newE).activities.map Activity.id).Perm
      (existingA.map Activity.id)) ∧
    (((sync_incremental parse twa isoCal weekStartOf t existingA newA
        existingE newE).events.map Event.id).Perm
      (existingE.map Event.id)) := by
  have hact : (sync_incremental parse twa isoCal weekStartOf t existingA newA
      existingE newE).activities =
      (match_workouts (merge_events parse twa existingE newE)
        (merge_activities parse twa existingA newA) t).1 := rfl
  have hev : (sync_incremental parse twa isoCal weekStartOf t existingA newA
      existingE newE).events =
      (match_workouts (merge_events parse twa existingE newE)
        (merge_activities parse twa existingA newA) t).2 := rfl
  have hmergeA : (((merge_activities parse twa existingA newA).map Activity.id)).Perm
      (existingA.map Activity.id) :=
    mergeKeyed_ids_stable Activity.id Activity.date parse twa existingA newA
      hneA hndA hneNA hndNA hcovA hnoNewA
  have hmergeE : (((merge_events parse twa existingE newE).map Event.id)).Perm
      (existingE.map Event.id) :=
    mergeKeyed_ids_stable Event.id Event.start_date_local parse twa existingE newE
      hneE hndE hneNE hndNE hcovE hnoNewE
  have hndMA : ((merge_activities parse twa existingA newA).map Activity.id).Nodup :=
    mergeKeyed_ids_nodup Activity.id Activity.date parse twa existingA newA
  have hndME : ((merge_events parse twa existingE newE).map Event.id).Nodup :=
    mergeKeyed_ids_nodup Event.id Event.start_date_local parse twa existingE newE
  constructor
  · rw [hact]
    exact (matcher_activity_ids (merge_events parse twa existingE newE)
      (merge_activities parse twa existingA newA) t hndMA).trans hmergeA
  · rw [hev]
    exact (matcher_event_ids (merge_events parse twa existingE newE)
      (merge_activities parse twa existingA newA) t hndME).trans hmergeE

/-- Witness for `C3_idempotent_ids_amended` at a concrete input. -/
theorem C3_idempotent_ids_amended_witness :
    ((sync_incremental noParse 0 noCal noCal (mkRat 1 5)
        [aOld] [aOld] [e1ev] [e1ev]).activities.map Activity.id).Perm
      ([aOld].map Activity.id) :=
  (C3_idempotent_ids_amended noParse 0 noCal noCal (mkRat 1 5) [aOld] [aOld] [e1ev] [e1ev]
    (by decide) (by decide) (by decide) (by decide) (by decide) (by decide)
    (by decide) (by decide) (by decide) (by decide) (by decide) (by decide)).1

/-- **C6** (counterexample): a matched activity with actual TSS 0 and planned
TSS 75 (known and available) gets `variance_tss = −75` but
`completion_percentage = None`, although the claim's formula yields the
well-defined value 0.0 and asserts the derived fields are present exactly when
the planned values are available: the code's `round(...) if
completion_percentage else None` treats the float 0.0 as falsy. -/
theorem C6_counterexample :
    (((dictGet? "2024-03-10" (build_date_index [cxA6] [cxE6])).getD
        emptyDateEntry).actual.map
      (fun ae => (ae.matched_event_id, ae.actual_tss, ae.variance_tss,
        ae.completion_percentage)) =
      [(some "E1", some (qof 0), some (qsub (qof 0) (qof 75)), none)]) ∧
    cxE6.icu_training_load = some (qof 75) ∧
    some (pyRound (qmul (qdiv (qof 0) (qof 75)) (qof 100)) 1) = some (qof 0) := by
  decide

/-- **C6** (amended): in the by-date index, a matched actual entry whose
event lookup succeeds carries `variance_tss = actual − planned TSS` and
`completion_percentage = round(actual/planned·100, 1)` when both TSS values
are present and the planned one non-zero — EXCEPT that a percentage of
exactly 0 (actual TSS 0) is stored as None — and carries
`variance_duration_seconds = actual − planned duration` when both durations
are present and the planned one non-zero; each derived field is None whenever
its actual value is absent or its planned value is absent or zero, and all
three are None when the event lookup fails, the stored id is empty, or the
activity is unmatched; in the example scenario (actual TSS 80 / planned 75,
actual duration 3600 / planned 3500, provider-paired) the entry shows
`variance_tss = 5`, `variance_duration_seconds = 100` and completion 106.7. -/
theorem C6_date_entry_amended :
    (∀ (events : List Event) (activity : Activity) (ev : Event) (av pv : ℚ),
      activity.planned_event_id = some ev.id → ev.id ≠ "" →
      events.find? (fun e => e.id == ev.id) = some ev →
      activity.training_stress_score = some av →
      ev.icu_training_load = some pv → pv ≠ 0 →
      (actual_entry events activity).variance_tss = some (qsub av pv) ∧
      (actual_entry events activity).completion_percentage =
        (if qmul (qdiv av pv) (qof 100) ≠ 0 then
          some (pyRound (qmul (qdiv av pv) (qof 100)) 1)
        else none)) ∧
    (∀ (events : List Event) (activity : Activity) (ev : Event) (ad pd : ℚ),
      activity.planned_event_id = some ev.id → ev.id ≠ "" →
      events.find? (fun e => e.id == ev.id) = some ev →
      activity.duration_seconds = some ad →
      ev.moving_time = some pd → pd ≠ 0 →
      (actual_entry events activity).variance_duration_seconds = some (qsub ad pd)) ∧
    (∀ (events : List Event) (activity : Activity) (ev : Event),
      activity.planned_event_id = some ev.id → ev.id ≠ "" →
      events.find? (fun e => e.id == ev.id) = some ev →
      ((activity.training_stress_score = none ∨ ev.icu_training_load = none ∨
          ev.icu_training_load = some 0) →
        (actual_entry events activity).variance_tss = none ∧
        (actual_entry events activity).completion_percentage = none) ∧
      ((activity.duration_seconds = none ∨ ev.moving_time = none ∨
          ev.moving_time = some 0) →
        (actual_entry events activity).variance_duration_seconds = none)) ∧
    (∀ (events : List Event) (activity : Activity) (mid : String),
      activity.planned_event_id = some mid → mid ≠ "" →
      events.find? (fun e => e.id == mid) = none →
      (actual_entry events activity).variance_tss = none ∧
      (actual_entry events activity).variance_duration_seconds = none ∧
      (actual_entry events activity).completion_percentage = none) ∧
    (∀ (events : List Event) (activity : Activity),
      (activity.planned_event_id = none ∨ activity.planned_event_id = some "") →
      (actual_entry events activity).variance_tss = none ∧
      (actual_entry events activity).variance_duration_seconds = none ∧
      (actual_entry events activity).completion_percentage = none) ∧
    (((dictGet? "2024-03-10" (build_date_index
        (match_workouts [exE1] [exA1] (mkRat 1 5)).1
        (match_workouts [exE1] [exA1] (mkRat 1 5)).2)).getD emptyDateEntry).actual.map
      (fun ae => (ae.matched_event_id, ae.match_confidence, ae.variance_tss,
        ae.variance_duration_seconds, ae.completion_percentage)) =
      [(some "E1", some (qof 1), some (qof 5), some (qof 100),
        some (mkRat 1067 10))]) := by
  refine ⟨?_, ?_, ?_, ?_, ?_, by decide⟩
  · intro events activity ev av pv hpl hne hfind htss hload hpv
    constructor
    · simp only [actual_entry, hpl, hfind, htss, hload]
      simp [hne, hpv]
    · simp only [actual_entry, hpl, hfind, htss, hload]
      simp [hne, hpv]
  · intro events activity ev ad pd hpl hne hfind hdur hmov hpd
    simp only [actual_entry, hpl, hfind, hdur, hmov]
    simp [hne, hpd]
  · intro events activity ev hpl hne hfind
    constructor
    · intro hcase
      rcases hcase with h | h | h
      · constructor
        · simp only [actual_entry, hpl, hfind, h]
          simp [hne]
        · simp only [actual_entry, hpl, hfind, h]
          simp [hne]
      · cases hts : activity.training_stress_score with
        | none =>
          constructor
          · simp only [actual_entry, hpl, hfind, hts]
            simp [hne]
          · simp only [actual_entry, hpl, hfind, hts]
            simp [hne]
        | some av =>
          constructor
          · simp only [actual_entry, hpl, hfind, hts, h]
            simp [hne]
          · simp only [actual_entry, hpl, hfind, hts, h]
            simp [hne]
      · cases hts : activity.training_stress_score with
        | none =>
          constructor
          · simp only [actual_entry, hpl, hfind, hts]
            simp [hne]
          · simp only [actual_entry, hpl, hfind, hts]
            simp [hne]
        | some av =>
          constructor
          · simp only [actual_entry, hpl, hfind, hts, h]
            simp [hne]
          · simp only [actual_entry, hpl, hfind, hts, h]
            simp [hne]
    · intro hcase
      rcases hcase with h | h | h
      · simp only [actual_entry, hpl, hfind, h]
        simp [hne]
      · cases hd : activity.duration_seconds with
        | none =>
          simp only [actual_entry, hpl, hfind, hd]
          simp [hne]
        | some ad =>
          simp only [actual_entry, hpl, hfind, hd, h]
          simp [hne]
      · cases hd : activity.duration_seconds with
        | none =>
          simp only [actual_entry, hpl, hfind, hd]
          simp [hne]
        | some ad =>
          simp only [actual_entry, hpl, hfind, hd, h]
          simp [hne]
  · intro events activity mid hpl hne hfind
    refine ⟨?_, ?_, ?_⟩
    · simp only [actual_entry, hpl, hfind]
      simp [hne]
    · simp only [actual_entry, hpl, hfind]
      simp [hne]
    · simp only [actual_entry, hpl, hfind]
      simp [hne]
  · intro events activity hpl
    rcases hpl with h | h
    · refine ⟨?_, ?_, ?_⟩
      · simp only [actual_entry, h]
      · simp only [actual_entry, h]
      · simp only [actual_entry, h]
    · refine ⟨?_, ?_, ?_⟩
      · simp only [actual_entry, h]
        simp
      · simp only [actual_entry, h]
        simp
      · simp only [actual_entry, h]
        simp

/-- Witness for `C6_date_entry_amended` at a concrete input: the matched pair
`cxA6`/`cxE6` (actual TSS 0 / planned 75, actual duration 3600 / planned
3500). -/
theorem C6_date_entry_amended_witness :
    ((actual_entry [cxE6] cxA6).variance_tss = some (qsub (qof 0) (qof 75)) ∧
      (actual_entry [cxE6] cxA6).completion_percentage =
        (if qmul (qdiv (qof 0) (qof 75)) (qof 100) ≠ 0 then
          some (pyRound (qmul (qdiv (qof 0) (qof 75)) (qof 100)) 1)
        else none)) ∧
    (actual_entry [cxE6] cxA6).variance_duration_seconds =
      some (qsub (qof 3600) (qof 3500)) :=
  ⟨C6_date_entry_amended.1 [cxE6] cxA6 cxE6 (qof 0) (qof 75)
      (by decide) (by decide) (by decide) (by decide) (by decide) (by decide),
    C6_date_entry_amended.2.1 [cxE6] cxA6 cxE6 (qof 3600) (qof 3500)
      (by decide) (by decide) (by decide) (by decide) (by decide) (by decide)⟩

/-! ## Rounding bounds -/

theorem qfloor_eq (x : ℚ) : qfloor x = ⌊x⌋ := by
  rw [Rat.floor_def]
  rfl

theorem roundHalfEven_nonneg (x : ℚ) (hx : 0 ≤ x) : 0 ≤ roundHalfEven x := by
  have h0f : 0 ≤ ⌊x⌋ := Int.le_floor.2 (by exact_mod_cast hx)
  show 0 ≤ (if qltB (qsub x (qof (qfloor x))) (mkRat 1 2) then qfloor x
    else if qltB (mkRat 1 2) (qsub x (qof (qfloor x))) then qfloor x + 1
    else if qfloor x % 2 = 0 then qfloor x else qfloor x + 1)
  rw [qfloor_eq]
  split_ifs <;> omega

theorem roundHalfEven_le (x : ℚ) (n : ℤ) (hx : x ≤ (n : ℚ)) : roundHalfEven x ≤ n := by
  have hfle : (⌊x⌋ : ℚ) ≤ x := Int.floor_le x
  have hfn : ⌊x⌋ ≤ n := by
    have h := Int.floor_mono hx
    rwa [Int.floor_intCast] at h
  show (if qltB (qsub x (qof (qfloor x))) (mkRat 1 2) then qfloor x
    else if qltB (mkRat 1 2) (qsub x (qof (qfloor x))) then qfloor x + 1
    else if qfloor x % 2 = 0 then qfloor x else qfloor x + 1) ≤ n
  rw [qfloor_eq, qsub_eq, qof_eq, mkRat_half, qltB_eq_decide, qltB_eq_decide]
  have hstep : ¬ (x - (⌊x⌋ : ℚ) < 1 / 2) → ⌊x⌋ + 1 ≤ n := by
    intro hge
    have h2 : (1 : ℚ) / 2 ≤ x - (⌊x⌋ : ℚ) := le_of_not_lt hge
    have h3 : (⌊x⌋ : ℚ) < (n : ℚ) := by linarith
    have h4 : ⌊x⌋ < n := by exact_mod_cast h3
    omega
  split_ifs with h1 h2
  · exact hfn
  · exact hstep (by simpa using h1)
  · exact hfn
  · exact hstep (by simpa using h1)

/-- `round(x, 3)` of a ratio in `[0, 1]` stays in `[0, 1]`. -/
theorem pyRound3_bounds01 (x : ℚ) (h0 : 0 ≤ x) (h1 : x ≤ 1) :
    0 ≤ pyRound x 3 ∧ pyRound x 3 ≤ 1 := by
  have hy : qmul x (qof ((10 : ℤ) ^ 3)) = x * 1000 := by
    rw [qmul_eq, qof_eq]
    norm_num
  have hr0 : 0 ≤ roundHalfEven (qmul x (qof ((10 : ℤ) ^ 3))) := by
    rw [hy]
    exact roundHalfEven_nonneg _ (by linarith)
  have hr1 : roundHalfEven (qmul x (qof ((10 : ℤ) ^ 3))) ≤ 1000 := by
    rw [hy]
    refine roundHalfEven_le _ 1000 ?_
    push_cast
    linarith
  constructor
  · show 0 ≤ mkRat (roundHalfEven (qmul x (qof ((10 : ℤ) ^ 3)))) ((10 : ℤ) ^ 3).toNat
    rw [Rat.mkRat_eq_div]
    refine div_nonneg ?_ (by norm_num)
    exact_mod_cast hr0
  · show mkRat (roundHalfEven (qmul x (qof ((10 : ℤ) ^ 3)))) ((10 : ℤ) ^ 3).toNat ≤ 1
    rw [Rat.mkRat_eq_div]
    rw [div_le_one (by norm_num)]
    have : (((10 : ℤ) ^ 3).toNat : ℚ) = 1000 := by
      show ((1000 : ℕ) : ℚ) = 1000
      norm_num
    rw [this]
    exact_mod_cast hr1

theorem build_week_index_eq (isoCal weekStartOf : String → Option String)
    (activities : List Activity) (events : List Event) :
    build_week_index isoCal weekStartOf activities events =
      (activities.foldl (bw_astep isoCal)
        (events.foldl (bw_estep isoCal weekStartOf) [])).map bw_final := rfl

theorem weekDefault_inv : weekEntryInv weekDefault :=
  ⟨Nat.le.refl, rfl, rfl⟩

theorem getD_weekInv (week : String) (d : List (String × WeekEntry))
    (hP : ∀ kv ∈ d, weekEntryInv kv.2) :
    weekEntryInv ((dictGet? week d).getD weekDefault) := by
  cases hget : dictGet? week d with
  | none => exact weekDefault_inv
  | some w0 => exact hP (week, w0) (mem_of_dictGet?_eq_some hget)

theorem estep_entry_inv (weekStartOf : String → Option String) (week : String)
    (event : Event) (c0 : WeekEntry) (h : weekEntryInv c0) :
    weekEntryInv (
      let c1 :=
        if c0.week_start = none ∨ c0.week_start = some "" then
          { c0 with week_start := weekStartOf week }
        else c0
      let pt :=
        match event.icu_training_load with
        | some v => v
        | none => qof 0
      let c2 := { c1 with
        planned_tss := qadd c1.planned_tss pt,
        planned_workouts := c1.planned_workouts + 1 }
      if event.completed then
        { c2 with completed_workouts := c2.completed_workouts + 1 }
      else c2) := by
  rcases h with ⟨hle, hcr, hta⟩
  by_cases h1 : (c0.week_start = none ∨ c0.week_start = some "")
  all_goals cases hcpl : event.completed
  all_goals simp [weekEntryInv, h1, hcpl, hcr, hta]
  all_goals omega

theorem bw_estep_inv (isoCal weekStartOf : String → Option String)
    (d : List (String × WeekEntry)) (event : Event)
    (hP : ∀ kv ∈ d, weekEntryInv kv.2) :
    ∀ kv ∈ bw_estep isoCal weekStartOf d event, weekEntryInv kv.2 := by
  intro kv hkv
  rw [bw_estep] at hkv
  cases h : (extract_date event.start_date_local).bind isoCal with
  | none =>
    rw [h] at hkv
    exact hP kv hkv
  | some week =>
    rw [h] at hkv
    rcases mem_dictInsert hkv with heq | hmem
    · rw [heq]
      exact estep_entry_inv weekStartOf week event _ (getD_weekInv week d hP)
    · exact hP kv hmem

theorem bw_astep_inv (isoCal : String → Option String)
    (d : List (String × WeekEntry)) (activity : Activity)
    (hP : ∀ kv ∈ d, weekEntryInv kv.2) :
    ∀ kv ∈ bw_astep isoCal d activity, weekEntryInv kv.2 := by
  intro kv hkv
  rw [bw_astep] at hkv
  cases h : (extract_date activity.date).bind isoCal with
  | none =>
    rw [h] at hkv
    exact hP kv hkv
  | some week =>
    rw [h] at hkv
    rcases mem_dictInsert hkv with heq | hmem
    · rw [heq]
      obtain ⟨hle, hcr, hta⟩ := getD_weekInv week d hP
      exact ⟨hle, hcr, hta⟩
    · exact hP kv hmem

theorem week_fold_inv (isoCal weekStartOf : String → Option String)
    (activities : List Activity) (events : List Event) :
    ∀ kv ∈ activities.foldl (bw_astep isoCal)
      (events.foldl (bw_estep isoCal weekStartOf) []), weekEntryInv kv.2 := by
  refine foldl_inv (bw_astep isoCal) (fun d => ∀ kv ∈ d, weekEntryInv kv.2)
    (fun st x hP => bw_astep_inv isoCal st x hP) activities
    (events.foldl (bw_estep isoCal weekStartOf) []) ?_
  refine foldl_inv (bw_estep isoCal weekStartOf) (fun d => ∀ kv ∈ d, weekEntryInv kv.2)
    (fun st x hP => bw_estep_inv isoCal weekStartOf st x hP) events [] ?_
  intro kv hkv
  simp at hkv

/-- **C7**: For every week key in the by-week index (built from any inputs, in
particular the matcher's output with pairwise-distinct ids): when
planned_workouts > 0, compliance_rate = round(completed/planned, 3) and
0 ≤ compliance_rate ≤ 1; when planned_workouts = 0, compliance_rate stays 0.0
(no division); likewise tss_adherence = round(actual/planned TSS, 3) when
planned TSS > 0 and stays 0.0 otherwise. -/
theorem C7_week_metrics (isoCal weekStartOf : String → Option String)
    (activities : List Activity) (events : List Event) :
    ∀ kv ∈ build_week_index isoCal weekStartOf activities events,
      (0 < kv.2.planned_workouts →
        kv.2.compliance_rate =
          pyRound (qdiv (qof kv.2.completed_workouts) (qof kv.2.planned_workouts)) 3 ∧
        0 ≤ kv.2.compliance_rate ∧ kv.2.compliance_rate ≤ 1) ∧
      (kv.2.planned_workouts = 0 → kv.2.compliance_rate = qof 0) ∧
      (0 < kv.2.planned_tss → kv.2.tss_adherence =
        pyRound (qdiv kv.2.actual_tss kv.2.planned_tss) 3) ∧
      (¬ 0 < kv.2.planned_tss → kv.2.tss_adherence = qof 0) := by
  intro kv hkv
  rw [build_week_index_eq] at hkv
  obtain ⟨kv0, hkv0, heq⟩ := List.mem_map.1 hkv
  obtain ⟨hle, hcr, hta⟩ := week_fold_inv isoCal weekStartOf activities events kv0 hkv0
  subst heq
  have hbounds : 0 < kv0.2.planned_workouts →
      0 ≤ pyRound (qdiv (qof kv0.2.completed_workouts) (qof kv0.2.planned_workouts)) 3 ∧
      pyRound (qdiv (qof kv0.2.completed_workouts) (qof kv0.2.planned_workouts)) 3 ≤ 1 := by
    intro hpw
    have hx : qdiv (qof kv0.2.completed_workouts) (qof kv0.2.planned_workouts) =
        ((kv0.2.completed_workouts : ℚ)) / ((kv0.2.planned_workouts : ℚ)) := by
      rw [qdiv_eq, qof_eq, qof_eq]
      push_cast
      ring
    have hp0 : (0 : ℚ) < (kv0.2.planned_workouts : ℚ) := by exact_mod_cast hpw
    have hx0 : 0 ≤ qdiv (qof kv0.2.completed_workouts) (qof kv0.2.planned_workouts) := by
      rw [hx]
      positivity
    have hx1 : qdiv (qof kv0.2.completed_workouts) (qof kv0.2.planned_workouts) ≤ 1 := by
      rw [hx, div_le_one hp0]
      exact_mod_cast hle
    exact pyRound3_bounds01 _ hx0 hx1
  simp only [bw_final]
  split_ifs with h1 h2 h3
  · have h2b : qltB (qof 0) kv0.2.planned_tss = true := h2
    have hpt : 0 < kv0.2.planned_tss := by
      have := (qltB_iff _ _).1 h2b
      rwa [qof_zero] at this
    refine ⟨fun _ => ⟨rfl, (hbounds h1).1, (hbounds h1).2⟩, ?_, fun _ => rfl, ?_⟩
    · intro h0
      have h0b : kv0.2.planned_workouts = 0 := h0
      exact absurd h1 (by omega)
    · intro hn
      exact absurd hpt hn
  · have h2b : qltB (qof 0) kv0.2.planned_tss = false := by
      exact Bool.eq_false_iff.2 h2
    refine ⟨fun _ => ⟨rfl, (hbounds h1).1, (hbounds h1).2⟩, ?_, ?_, fun _ => hta⟩
    · intro h0
      have h0b : kv0.2.planned_workouts = 0 := h0
      exact absurd h1 (by omega)
    · intro hpt
      have : qltB (qof 0) kv0.2.planned_tss = true := by
        rw [qltB_iff, qof_zero]
        exact hpt
      rw [this] at h2b
      exact absurd h2b (by simp)
  · have hpt : 0 < kv0.2.planned_tss := by
      have := (qltB_iff _ _).1 h3
      rwa [qof_zero] at this
    refine ⟨fun hp => absurd hp h1, fun _ => hcr, fun _ => rfl, fun hn => absurd hpt hn⟩
  · refine ⟨fun hp => absurd hp h1, fun _ => hcr, ?_, fun _ => hta⟩
    intro hpt
    have hc : qltB (qof 0) kv0.2.planned_tss = true := by
      rw [qltB_iff, qof_zero]
      exact hpt
    exact absurd hc (by simp [h3])

/-- Witness for `C7_week_metrics` at a concrete input. -/
theorem C7_week_metrics_witness :
    (0 < wk7val.planned_workouts →
      wk7val.compliance_rate =
        pyRound (qdiv (qof wk7val.completed_workouts) (qof wk7val.planned_workouts)) 3 ∧
      0 ≤ wk7val.compliance_rate ∧ wk7val.compliance_rate ≤ 1) ∧
    (wk7val.planned_workouts = 0 → wk7val.compliance_rate = qof 0) ∧
    (0 < wk7val.planned_tss → wk7val.tss_adherence =
      pyRound (qdiv wk7val.actual_tss wk7val.planned_tss) 3) ∧
    (¬ 0 < wk7val.planned_tss → wk7val.tss_adherence = qof 0) :=
  C7_week_metrics isoCal7 weekStart7 [exA1] [ev7c] ("2024-W10", wk7val) (by decide)

/-! ## Order facts about the code-point comparison -/

theorem lexLtB_asymm : ∀ a b : List Char, lexLtB a b = true → lexLtB b a = false := by
  intro a
  induction a with
  | nil =>
    intro b h
    cases b with
    | nil => exact absurd h (by simp [lexLtB])
    | cons d ds => rfl
  | cons c cs ih =>
    intro b h
    cases b with
    | nil => exact absurd h (by simp [lexLtB])
    | cons d ds =>
      rw [lexLtB] at h ⊢
      by_cases h1 : c.toNat < d.toNat
      · rw [if_neg (by omega), if_pos h1]
      · rw [if_neg h1] at h
        by_cases h2 : d.toNat < c.toNat
        · rw [if_pos h2] at h
          exact absurd h (by simp)
        · rw [if_neg h2] at h
          rw [if_neg h2, if_neg h1]
          exact ih ds h

theorem lexLtB_negtrans : ∀ b a c : List Char,
    lexLtB a c = true → lexLtB a b = true ∨ lexLtB b c = true := by
  intro b
  induction b with
  | nil =>
    intro a c h
    cases a with
    | nil => exact Or.inr h
    | cons a1 ta =>
      cases c with
      | nil => exact absurd h (by simp [lexLtB])
      | cons c1 tc => exact Or.inr (by rfl)
  | cons b1 tb ih =>
    intro a c h
    cases a with
    | nil => exact Or.inl (by rfl)
    | cons a1 ta =>
      cases c with
      | nil => exact absurd h (by simp [lexLtB])
      | cons c1 tc =>
        rw [lexLtB] at h
        by_cases hab : a1.toNat < b1.toNat
        · exact Or.inl (by rw [lexLtB, if_pos hab])
        · by_cases hba : b1.toNat < a1.toNat
          · -- b1 < a1 and a1 ≤ c1 (from h), so b1 < c1
            have hac : a1.toNat ≤ c1.toNat := by
              by_cases h1 : a1.toNat < c1.toNat
              · omega
              · by_cases h2 : c1.toNat < a1.toNat
                · rw [if_neg h1, if_pos h2] at h
                  exact absurd h (by simp)
                · omega
            exact Or.inr (by rw [lexLtB, if_pos (by omega)])
          · -- a1 and b1 have equal code points
            by_cases h1 : a1.toNat < c1.toNat
            · exact Or.inr (by rw [lexLtB, if_pos (by omega)])
            · by_cases h2 : c1.toNat < a1.toNat
              · rw [if_neg h1, if_pos h2] at h
                exact absurd h (by simp)
              · rw [if_neg h1, if_neg h2] at h
                rcases ih ta tc h with h3 | h3
                · exact Or.inl (by rw [lexLtB, if_neg hab, if_neg hba]; exact h3)
                · exact Or.inr (by rw [lexLtB, if_neg (by omega), if_neg (by omega)]; exact h3)

theorem strLeB_refl (a : String) : strLeB a a = true := by
  rw [strLeB, strLtB, lexLtB_irrefl]
  rfl

theorem strLeB_of_not (a b : String) (h : ¬ strLeB a b = true) : strLeB b a = true := by
  rw [strLeB] at h ⊢
  rw [strLtB] at h ⊢
  rcases hlt : lexLtB b.data a.data with _ | _
  · exact absurd (by rw [hlt]; rfl) h
  · rw [lexLtB_asymm _ _ hlt]
    rfl

theorem strLeB_trans (a b c : String) (h1 : strLeB a b = true) (h2 : strLeB b c = true) :
    strLeB a c = true := by
  rw [strLeB, strLtB] at h1 h2 ⊢
  rcases hlt : lexLtB c.data a.data with _ | _
  · rfl
  · rcases lexLtB_negtrans b.data c.data a.data hlt with h3 | h3
    · rw [h3] at h2
      exact absurd h2 (by simp)
    · rw [h3] at h1
      exact absurd h1 (by simp)

/-! ## The ascending string sort: membership and minimality of the head -/

theorem insertStrAsc_mem (y : String) : ∀ (l : List String) (x : String),
    x ∈ insertStrAsc y l ↔ x = y ∨ x ∈ l := by
  intro l
  induction l with
  | nil =>
    intro x
    simp [insertStrAsc]
  | cons h t ih =>
    intro x
    rw [insertStrAsc]
    by_cases hc : strLeB y h = true
    · rw [if_pos hc]
      simp
    · rw [if_neg hc]
      simp only [List.mem_cons, ih]
      tauto

theorem sortStringsAsc_mem : ∀ (l : List String) (x : String),
    x ∈ sortStringsAsc l ↔ x ∈ l := by
  intro l
  induction l with
  | nil =>
    intro x
    simp [sortStringsAsc]
  | cons h t ih =>
    intro x
    show x ∈ insertStrAsc h (sortStringsAsc t) ↔ _
    rw [insertStrAsc_mem, ih]
    simp

theorem sortStringsAsc_head_min : ∀ (l : List String),
    ∀ x ∈ sortStringsAsc l, strLeB ((sortStringsAsc l).headD "") x = true := by
  intro l
  induction l with
  | nil =>
    intro x hx
    simp [sortStringsAsc] at hx
  | cons y t ih =>
    intro x hx
    have hx2 : x ∈ insertStrAsc y (sortStringsAsc t) := hx
    have hshow : sortStringsAsc (y :: t) = insertStrAsc y (sortStringsAsc t) := rfl
    rw [hshow]
    cases hs : sortStringsAsc t with
    | nil =>
      rw [hs] at hx2
      rw [insertStrAsc] at hx2 ⊢
      have hxy : x = y := by simpa using hx2
      rw [hxy]
      exact strLeB_refl y
    | cons h2 t2 =>
      rw [hs] at hx2
      rw [insertStrAsc] at hx2 ⊢
      by_cases hc : strLeB y h2 = true
      · rw [if_pos hc] at hx2 ⊢
        rcases List.mem_cons.1 hx2 with hxy | hx3
        · rw [hxy]
          exact strLeB_refl y
        · have hmin := ih x (by rw [hs]; exact hx3)
          rw [hs] at hmin
          exact strLeB_trans y h2 x hc hmin
      · rw [if_neg hc] at hx2 ⊢
        have hhy : strLeB h2 y = true := strLeB_of_not y h2 hc
        rcases List.mem_cons.1 hx2 with hxh | hx3
        · rw [hxh]
          exact strLeB_refl h2
        · rcases (insertStrAsc_mem y t2 x).1 hx3 with hxy | hx4
          · rw [hxy]
            exact hhy
          · have hmin := ih x (by rw [hs]; exact List.mem_cons_of_mem _ hx4)
            rw [hs] at hmin
            exact hmin

theorem aggregate_daily_tss_eq (hist : List Activity) :
    aggregate_daily_tss hist = hist.foldl ag_step [] := rfl

theorem qadd_zero_left (t : ℚ) : qadd (qof 0) t = t := by
  rw [qadd_eq, qof_eq]
  push_cast
  ring

theorem addTss_cons (c : ℚ) (w : Activity) (l : List Activity) :
    addTss c (w :: l) = addTss (qadd c (tssOf w)) l := rfl

theorem agdt_get : ∀ (hist : List Activity) (d : List (String × ℚ)) (ds : String),
    dictGet? ds (hist.foldl ag_step d) =
      match dictGet? ds d with
      | some c => some (addTss c (hist.filter (fun w => decide (splitTPart w.date = ds))))
      | none =>
        if hist.filter (fun w => decide (splitTPart w.date = ds)) = [] then none
        else some (dayTss hist ds) := by
  intro hist
  induction hist with
  | nil =>
    intro d ds
    cases hget : dictGet? ds d with
    | some c => simpa [addTss] using hget
    | none => simpa using hget
  | cons w rest ih =>
    intro d ds
    rw [List.foldl_cons]
    by_cases hds : splitTPart w.date = ds
    · have hfil : (w :: rest).filter (fun w => decide (splitTPart w.date = ds)) =
          w :: rest.filter (fun w => decide (splitTPart w.date = ds)) :=
        List.filter_cons_of_pos (by simp [hds])
      subst hds
      cases hget : dictGet? (splitTPart w.date) d with
      | some c =>
        have hstep : ag_step d w =
            dictInsert (splitTPart w.date) (qadd c (tssOf w)) d := by
          rw [ag_step, hget]
        rw [hstep, ih, dictGet?_insert_self]
        simp [hfil, addTss_cons]
      | none =>
        have hstep : ag_step d w = dictInsert (splitTPart w.date) (tssOf w) d := by
          rw [ag_step, hget]
        rw [hstep, ih, dictGet?_insert_self]
        simp [hfil, dayTss, addTss_cons, qadd_zero_left]
    · have hfil : (w :: rest).filter (fun w => decide (splitTPart w.date = ds)) =
          rest.filter (fun w => decide (splitTPart w.date = ds)) :=
        List.filter_cons_of_neg (by simp [hds])
      have hne2 : splitTPart w.date ≠ ds := hds
      cases hget : dictGet? (splitTPart w.date) d with
      | some c =>
        have hstep : ag_step d w =
            dictInsert (splitTPart w.date) (qadd c (tssOf w)) d := by
          rw [ag_step, hget]
        rw [hstep, ih, dictGet?_insert_ne _ _ (fun h => hne2 h.symm)]
        cases dictGet? ds d <;> simp [dayTss, hfil]
      | none =>
        have hstep : ag_step d w = dictInsert (splitTPart w.date) (tssOf w) d := by
          rw [ag_step, hget]
        rw [hstep, ih, dictGet?_insert_ne _ _ (fun h => hne2 h.symm)]
        cases dictGet? ds d <;> simp [dayTss, hfil]

/-- The default-0 lookup of the daily dict is exactly the per-day sum. -/
theorem daily_tss_getD (hist : List Activity) (ds : String) :
    (dictGet? ds (aggregate_daily_tss hist)).getD (qof 0) = dayTss hist ds := by
  rw [aggregate_daily_tss_eq, agdt_get]
  show ((if hist.filter (fun w => decide (splitTPart w.date = ds)) = [] then none
    else some (dayTss hist ds)).getD (qof 0)) = dayTss hist ds
  by_cases hfil : hist.filter (fun w => decide (splitTPart w.date = ds)) = []
  · rw [if_pos hfil]
    rw [dayTss, hfil]
    rfl
  · rw [if_neg hfil]
    rfl

theorem dictGet?_eq_none_iff {α : Type} (k : String) :
    ∀ (d : List (String × α)), dictGet? k d = none ↔ k ∉ dictKeys d := by
  intro d
  induction d with
  | nil => simp [dictGet?, dictKeys]
  | cons kv rest ih =>
    obtain ⟨k2, v2⟩ := kv
    rw [dictGet?, dictKeys]
    by_cases h2 : k2 = k
    · subst h2
      simp
    · rw [if_neg h2]
      rw [ih]
      simp [dictKeys, Ne.symm h2]

/-- The keys of the daily dict are exactly the activities' date parts. -/
theorem aggregate_keys (hist : List Activity) (k : String) :
    k ∈ dictKeys (aggregate_daily_tss hist) ↔
      ∃ w ∈ hist, splitTPart w.date = k := by
  constructor
  · intro hk
    by_contra hno
    have hfil : hist.filter (fun w => decide (splitTPart w.date = k)) = [] := by
      rw [List.filter_eq_nil_iff]
      intro w hw
      simp only [decide_eq_true_eq]
      intro hc
      exact hno ⟨w, hw, hc⟩
    have hnone : dictGet? k (aggregate_daily_tss hist) = none := by
      rw [aggregate_daily_tss_eq, agdt_get]
      show (if hist.filter (fun w => decide (splitTPart w.date = k)) = [] then none
        else some (dayTss hist k)) = none
      rw [if_pos hfil]
    exact ((dictGet?_eq_none_iff k _).1 hnone) hk
  · rintro ⟨w, hw, hwk⟩
    by_contra hk
    have hnone : dictGet? k (aggregate_daily_tss hist) = none :=
      by
        cases hget : dictGet? k (aggregate_daily_tss hist) with
        | none => rfl
        | some v =>
          exact absurd (List.mem_map_of_mem Prod.fst (mem_of_dictGet?_eq_some hget)) hk
    rw [aggregate_daily_tss_eq, agdt_get] at hnone
    have hmem : w ∈ hist.filter (fun w => decide (splitTPart w.date = k)) :=
      List.mem_filter.2 ⟨hw, by simp [hwk]⟩
    have hne : hist.filter (fun w => decide (splitTPart w.date = k)) ≠ [] := by
      intro hc
      rw [hc] at hmem
      simp at hmem
    have hnone2 : (if hist.filter (fun w => decide (splitTPart w.date = k)) = [] then
        (none : Option ℚ) else some (dayTss hist k)) = none := hnone
    rw [if_neg hne] at hnone2
    exact absurd hnone2 (by simp)

/-- The code's per-day update equals the claim's recurrence on the per-day
TSS sums. -/
theorem ctl_step_val (hist : List Activity) (fmt : ℕ → String) (c : ℚ)
    (m : List (String × ℚ)) (d : ℕ) :
    (ctl_loop_step (aggregate_daily_tss hist) fmt (c, m) d).1 =
      ctlRec c (dayTss hist (fmt d)) := by
  show (if c == qof 0 &&
      qltB (qof 0) ((dictGet? (fmt d) (aggregate_daily_tss hist)).getD (qof 0)) then
      ((dictGet? (fmt d) (aggregate_daily_tss hist)).getD (qof 0))
    else qadd c (qdiv (qsub ((dictGet? (fmt d) (aggregate_daily_tss hist)).getD (qof 0)) c)
      (qof 42))) = ctlRec c (dayTss hist (fmt d))
  rw [daily_tss_getD]
  by_cases h : c = 0 ∧ 0 < dayTss hist (fmt d)
  · have hb : (c == qof 0 && qltB (qof 0) (dayTss hist (fmt d))) = true := by
      rw [Bool.and_eq_true, beq_iff_eq, qof_zero, qltB_iff]
      exact h
    rw [if_pos hb, ctlRec, if_pos h]
  · have hb : ¬ ((c == qof 0 && qltB (qof 0) (dayTss hist (fmt d))) = true) := by
      rw [Bool.and_eq_true, beq_iff_eq, qof_zero, qltB_iff]
      exact h
    rw [if_neg hb, ctlRec, if_neg h]
    rw [qadd_eq, qdiv_eq, qsub_eq, qof_eq]
    norm_num

/-- Appending semantics of `dictInsert` at a fresh key. -/
theorem dictInsert_eq_append {α : Type} (k : String) (v : α) :
    ∀ (d : List (String × α)), k ∉ dictKeys d → dictInsert k v d = d ++ [(k, v)] := by
  intro d
  induction d with
  | nil =>
    intro _
    rfl
  | cons kv rest ih =>
    intro hk
    obtain ⟨k2, v2⟩ := kv
    have hne : k2 ≠ k := by
      intro hc
      exact hk (by rw [dictKeys_cons, hc]; exact List.mem_cons_self _ _)
    have hk2 : k ∉ dictKeys rest := by
      intro hc
      exact hk (by rw [dictKeys_cons]; exact List.mem_cons_of_mem _ hc)
    rw [dictInsert, if_neg hne, ih hk2]
    rfl

/-- Closed form of the CTL fold when the emitted keys are fresh and pairwise
distinct: it appends one point per day. -/
theorem ctl_fold_closed (daily : List (String × ℚ)) (fmt : ℕ → String) :
    ∀ (days : List ℕ) (st : ℚ × List (String × ℚ)),
      (∀ d ∈ days, fmt d ∉ dictKeys st.2) →
      days.Pairwise (fun i j => fmt i ≠ fmt j) →
      (days.foldl (ctl_loop_step daily fmt) st).2 =
        st.2 ++ ctl_points daily fmt st.1 days := by
  intro days
  induction days with
  | nil =>
    intro st _ _
    simp [ctl_points]
  | cons d ds ih =>
    intro st hfresh hpw
    rw [List.foldl_cons]
    have hstep : ctl_loop_step daily fmt st d =
        ((ctl_loop_step daily fmt (st.1, []) d).1,
          dictInsert (fmt d) ((ctl_loop_step daily fmt (st.1, []) d).1) st.2) := rfl
    have hins : dictInsert (fmt d) ((ctl_loop_step daily fmt (st.1, []) d).1) st.2 =
        st.2 ++ [(fmt d, (ctl_loop_step daily fmt (st.1, []) d).1)] :=
      dictInsert_eq_append _ _ st.2 (hfresh d (List.mem_cons_self _ _))
    rw [hstep, hins]
    rw [ih _ ?_ (List.pairwise_cons.1 hpw).2]
    · show (st.2 ++ [(fmt d, (ctl_loop_step daily fmt (st.1, []) d).1)]) ++
          ctl_points daily fmt ((ctl_loop_step daily fmt (st.1, []) d).1) ds =
        st.2 ++ ctl_points daily fmt st.1 (d :: ds)
      rw [ctl_points, List.append_assoc]
      rfl
    · intro d2 hd2
      show fmt d2 ∉ dictKeys (st.2 ++ [(fmt d, (ctl_loop_step daily fmt (st.1, []) d).1)])
      rw [dictKeys, List.map_append]
      intro hc
      rcases List.mem_append.1 hc with hc2 | hc2
      · exact hfresh d2 (List.mem_cons_of_mem _ hd2) hc2
      · have hc3 : fmt d2 = fmt d := by simpa using hc2
        exact (List.pairwise_cons.1 hpw).1 d2 hd2 hc3.symm

theorem ctlFrom_shift (hist : List Activity) (fmt : ℕ → String) :
    ∀ (k : ℕ) (c : ℚ) (start : ℕ),
      ctlFrom hist fmt c start (k + 1) =
        ctlFrom hist fmt (ctlRec c (dayTss hist (fmt start))) (start + 1) k := by
  intro k
  induction k with
  | zero =>
    intro c start
    rfl
  | succ k ih =>
    intro c start
    show ctlRec (ctlFrom hist fmt c start (k + 1)) (dayTss hist (fmt (start + (k + 1)))) =
      ctlRec (ctlFrom hist fmt (ctlRec c (dayTss hist (fmt start))) (start + 1) k)
        (dayTss hist (fmt ((start + 1) + k)))
    rw [ih]
    have harith : start + (k + 1) = (start + 1) + k := by omega
    rw [harith]

theorem ctl_points_spec (hist : List Activity) (fmt : ℕ → String) :
    ∀ (n start : ℕ) (c : ℚ),
      ctl_points (aggregate_daily_tss hist) fmt c
        ((List.range n).map (fun i => start + i)) =
      (List.range n).map (fun i => (fmt (start + i), ctlFrom hist fmt c start (i + 1))) := by
  intro n
  induction n with
  | zero =>
    intro start c
    simp [ctl_points]
  | succ n ih =>
    intro start c
    have hlist : (List.range (n + 1)).map (fun i => start + i) =
        start :: (List.range n).map (fun i => (start + 1) + i) := by
      rw [List.range_succ_eq_map, List.map_cons, List.map_map]
      congr 1
      refine List.map_congr_left ?_
      intro i _
      show start + (i + 1) = (start + 1) + i
      omega
    rw [hlist]
    simp only [ctl_points]
    rw [ctl_step_val]
    rw [ih (start + 1) (ctlRec c (dayTss hist (fmt start)))]
    rw [List.range_succ_eq_map, List.map_cons, List.map_map]
    congr 1
    refine List.map_congr_left ?_
    intro i _
    show (fmt ((start + 1) + i),
        ctlFrom hist fmt (ctlRec c (dayTss hist (fmt start))) (start + 1) (i + 1)) =
      (fmt (start + (i + 1)), ctlFrom hist fmt c start ((i + 1) + 1))
    rw [ctlFrom_shift hist fmt (i + 1) c start]
    have harith : start + (i + 1) = (start + 1) + i := by omega
    rw [harith]

/-- Closed form of `_calculate_daily_ctl`: one point per day from the parsed
start day through today, values following the claim's recurrence on exact
per-day TSS sums. -/
theorem calculate_daily_ctl_spec (parse : String → Option ℕ) (fmt : ℕ → String)
    (today : ℕ) (hist : List Activity) (start : ℕ)
    (hinj : ∀ i, i ≤ today → ∀ j, j ≤ today → fmt i = fmt j → i = j)
    (hne : aggregate_daily_tss hist ≠ [])
    (hstart : parse ((sortStringsAsc (dictKeys (aggregate_daily_tss hist))).headD "")
      = some start)
    (hle : start ≤ today) :
    calculate_daily_ctl parse fmt today hist =
      (List.range (today - start + 1)).map
        (fun i => (fmt (start + i), ctlFrom hist fmt (qof 0) start (i + 1))) := by
  have hEmpty : (aggregate_daily_tss hist).isEmpty = false := by
    rw [List.isEmpty_eq_false]
    exact hne
  have h1 : calculate_daily_ctl parse fmt today hist =
      ((((List.range (today - start + 1)).map (fun i => start + i)).foldl
        (ctl_loop_step (aggregate_daily_tss hist) fmt) (qof 0, []))).2 := by
    simp only [calculate_daily_ctl]
    rw [if_neg (by simp [hEmpty])]
    rw [hstart]
    show ((if start ≤ today then
        (List.range (today - start + 1)).map (fun i => start + i)
      else []).foldl (ctl_loop_step (aggregate_daily_tss hist) fmt) (qof 0, [])).2 = _
    rw [if_pos hle]
  rw [h1]
  have hpw : ((List.range (today - start + 1)).map (fun i => start + i)).Pairwise
      (fun i j => fmt i ≠ fmt j) := by
    rw [List.pairwise_map]
    refine List.Pairwise.imp_of_mem ?_ (List.pairwise_lt_range (today - start + 1))
    intro a b ha hb hab hc
    have ha2 : a < today - start + 1 := List.mem_range.1 ha
    have hb2 : b < today - start + 1 := List.mem_range.1 hb
    have heq : start + a = start + b :=
      hinj (start + a) (by omega) (start + b) (by omega) hc
    omega
  rw [ctl_fold_closed (aggregate_daily_tss hist) fmt
    ((List.range (today - start + 1)).map (fun i => start + i)) (qof 0, [])
    (by intro d _; simp [dictKeys]) hpw]
  rw [ctl_points_spec]
  rfl

/-- **C9**: the daily training-load calculator sums TSS per calendar day,
iterates every day from the (string-minimal, i.e. earliest) activity date
through today inclusive filling missing days with 0 TSS, seeds the EMA with
the day's TSS while the running value is exactly 0 and the TSS positive,
otherwise applies `ema + (tss − ema)/42`, and emits exactly one point per day;
no activities yield an empty result.  (`fmt`/`parse` model `strftime` /
`strptime` on day numbers; `fmt` is injective on the processed range.) -/
theorem C9_daily_ctl (parse : String → Option ℕ) (fmt : ℕ → String)
    (today : ℕ) (hist : List Activity) (start : ℕ)
    (hinj : ∀ i, i ≤ today → ∀ j, j ≤ today → fmt i = fmt j → i = j)
    (hne : aggregate_daily_tss hist ≠ [])
    (hstart : parse ((sortStringsAsc (dictKeys (aggregate_daily_tss hist))).headD "")
      = some start)
    (hle : start ≤ today) :
    calculate_daily_ctl parse fmt today [] = [] ∧
    calculate_daily_ctl parse fmt today hist =
      (List.range (today - start + 1)).map
        (fun i => (fmt (start + i), ctlFrom hist fmt (qof 0) start (i + 1))) ∧
    (∀ i : ℕ, ctlFrom hist fmt (qof 0) start (i + 1) =
      (if ctlFrom hist fmt (qof 0) start i = 0 ∧ 0 < dayTss hist (fmt (start + i))
       then dayTss hist (fmt (start + i))
       else ctlFrom hist fmt (qof 0) start i +
         (dayTss hist (fmt (start + i)) - ctlFrom hist fmt (qof 0) start i) / 42)) ∧
    (∀ ds : String,
      (dictGet? ds (aggregate_daily_tss hist)).getD (qof 0) = dayTss hist ds) ∧
    ((sortStringsAsc (dictKeys (aggregate_daily_tss hist))).headD "" ∈
        dictKeys (aggregate_daily_tss hist) ∧
      ∀ w ∈ hist, strLeB ((sortStringsAsc (dictKeys (aggregate_daily_tss hist))).headD "")
        (splitTPart w.date) = true) := by
  refine ⟨rfl, calculate_daily_ctl_spec parse fmt today hist start hinj hne hstart hle,
    fun i => rfl, daily_tss_getD hist, ?_, ?_⟩
  · have hkne : dictKeys (aggregate_daily_tss hist) ≠ [] := by
      intro hc
      exact hne (by simpa [dictKeys] using hc)
    obtain ⟨k, hk⟩ := List.exists_mem_of_ne_nil _ hkne
    have hks : k ∈ sortStringsAsc (dictKeys (aggregate_daily_tss hist)) :=
      (sortStringsAsc_mem _ k).2 hk
    cases hs : sortStringsAsc (dictKeys (aggregate_daily_tss hist)) with
    | nil =>
      rw [hs] at hks
      exact absurd hks (by simp)
    | cons h2 t2 =>
      have hh : h2 ∈ sortStringsAsc (dictKeys (aggregate_daily_tss hist)) := by
        rw [hs]
        exact List.mem_cons_self _ _
      have hh2 := (sortStringsAsc_mem _ h2).1 hh
      exact hh2
  · intro w hw
    have hkey : splitTPart w.date ∈ dictKeys (aggregate_daily_tss hist) :=
      (aggregate_keys hist (splitTPart w.date)).2 ⟨w, hw, rfl⟩
    have hks : splitTPart w.date ∈ sortStringsAsc (dictKeys (aggregate_daily_tss hist)) :=
      (sortStringsAsc_mem _ _).2 hkey
    exact sortStringsAsc_head_min _ _ hks

/-- Witness for `C9_daily_ctl` at a concrete input. -/
theorem C9_daily_ctl_witness :
    calculate_daily_ctl parse9 fmt9 2 [] = [] ∧
    calculate_daily_ctl parse9 fmt9 2 [a9] =
      (List.range (2 - 0 + 1)).map
        (fun i => (fmt9 (0 + i), ctlFrom [a9] fmt9 (qof 0) 0 (i + 1))) ∧
    (∀ i : ℕ, ctlFrom [a9] fmt9 (qof 0) 0 (i + 1) =
      (if ctlFrom [a9] fmt9 (qof 0) 0 i = 0 ∧ 0 < dayTss [a9] (fmt9 (0 + i))
       then dayTss [a9] (fmt9 (0 + i))
       else ctlFrom [a9] fmt9 (qof 0) 0 i +
         (dayTss [a9] (fmt9 (0 + i)) - ctlFrom [a9] fmt9 (qof 0) 0 i) / 42)) ∧
    (∀ ds : String,
      (dictGet? ds (aggregate_daily_tss [a9])).getD (qof 0) = dayTss [a9] ds) ∧
    ((sortStringsAsc (dictKeys (aggregate_daily_tss [a9]))).headD "" ∈
        dictKeys (aggregate_daily_tss [a9]) ∧
      ∀ w ∈ [a9], strLeB ((sortStringsAsc (dictKeys (aggregate_daily_tss [a9]))).headD "")
        (splitTPart w.date) = true) :=
  C9_daily_ctl parse9 fmt9 2 [a9] 0 (by decide) (by decide) (by decide) (by decide)
